import Mathlib

/-!
Verification of the KeyDrive keyboard remapper core against its
natural-language specification.  The C++ sources are shallowly embedded:
byte strings become `List Nat` (each entry one byte), C++ `std::string`
names become `String`, key codes become `Int` (the sources use `int` with
`-1` as a sentinel), wall-clock instants become `ℚ` seconds, and
`std::optional` becomes `Option`.  Unordered maps are embedded as
association lists; `operator[]` insertion updates the first matching key
or appends.
-/

namespace KeyDrive

/-! ### Association-list helpers (model for `std::unordered_map` access) -/

def lookupA {α β : Type} [DecidableEq α] : List (α × β) → α → Option β
  | [], _ => none
  | (k, v) :: t, a => if k = a then some v else lookupA t a

def setA {α β : Type} [DecidableEq α] : List (α × β) → α → β → List (α × β)
  | [], a, b => [(a, b)]
  | (k, v) :: t, a, b => if k = a then (a, b) :: t else (k, v) :: setA t a b

/-! ### Layer data model (`layout_manager.hpp`) -/

inductive LayerType
  | Hold
  | Toggle
  | Onetime
  deriving DecidableEq, Repr

structure LayerKeyConfig where
  targetLayer : String
  type : LayerType
  deriving DecidableEq, Repr

structure LayerState where
  current : String
  toggles : List (String × Bool)
  oneTime : String
  hold : String
  holdKey : Int
  deriving DecidableEq, Repr

/-- The immutable tables held by `LayoutManager` after `loadLayout`:
key-name → position, layer-name → symbol list (symbols are byte strings),
and the cleaned layer-key symbol → configuration map. -/
structure Layout where
  keyPositions : List (String × Nat)
  layers : List (String × List (List Nat))
  layerKeys : List (List Nat × LayerKeyConfig)
  deriving DecidableEq, Repr

/-! ### `cleanChar`, `startsWith`, `getLayerForKey` (`layout_manager.cpp`) -/

/-- C `isspace` in the default locale: space and 0x09–0x0D. -/
def isSpaceByte (b : Nat) : Bool := b = 0x20 || (0x09 ≤ b && b ≤ 0x0D)

/-- `LayoutManager::cleanChar`: erase `"` and `'` characters and whitespace. -/
def cleanChar (s : List Nat) : List Nat :=
  ((s.filter (fun b => b ≠ 0x22)).filter (fun b => b ≠ 0x27)).filter
    (fun b => !isSpaceByte b)

/-- The anonymous-namespace `startsWith` helper:
`str.size() >= prefix.size() && str.compare(0, n, prefix) == 0`. -/
def startsWithB (s p : List Nat) : Bool := decide (s.take p.length = p)

/-- The byte string `"ly"`. -/
def lyBytes : List Nat := [0x6C, 0x79]

/-- `LayoutManager::getLayerForKey`: a key is a layer key iff its cleaned
base-layer symbol is nonempty, starts with `"ly"` and is registered in
`layerKeys`.  The C++ `(false, {})` result is `none`. -/
def getLayerForKey (L : Layout) (baseChar : List Nat) : Option LayerKeyConfig :=
  let c := cleanChar baseChar
  if c ≠ [] ∧ startsWithB c lyBytes then lookupA L.layerKeys c else none

/-! ### `getCurrentLayer` and `handleKeyRelease` -/

def firstActiveToggle : List (String × Bool) → Option String
  | [] => none
  | (n, b) :: t => if b then some n else firstActiveToggle t

/-- `LayoutManager::getCurrentLayer`: onetime, else hold, else the first
active toggle, else `"base"`. -/
def getCurrentLayer (ls : LayerState) : String :=
  if ls.oneTime ≠ "" then ls.oneTime
  else if ls.hold ≠ "" then ls.hold
  else match firstActiveToggle ls.toggles with
    | some n => n
    | none => "base"

/-- `LayoutManager::handleKeyRelease`. -/
def handleKeyRelease (ls : LayerState) (keyCode : Int) : LayerState :=
  if ls.holdKey = keyCode then { ls with hold := "", holdKey := -1 } else ls

/-! ### UTF-8 decode (`stringToChar32`) and encode (`utf32ToUtf8`) -/

def escN : List Nat := [0x5C, 0x6E]
def escT : List Nat := [0x5C, 0x74]
def escB : List Nat := [0x5C, 0x62]
def escX1B : List Nat := [0x5C, 0x78, 0x31, 0x62]
def escSpace : List Nat := [0x20]

/-- `stringToChar32` from `layout_manager.cpp`: escape strings first, then
UTF-8 decoding of the leading sequence, `none` on anything malformed. -/
def stringToChar32 (s : List Nat) : Option Nat :=
  if s = [] then none
  else if s = escN then some 0x0A
  else if s = escT then some 0x09
  else if s = escB then some 0x08
  else if s = escX1B then some 0x1B
  else if s = escSpace then some 0x20
  else
    let firstByte := s.headD 0
    if firstByte &&& 0x80 = 0 then some firstByte
    else if firstByte &&& 0xE0 = 0xC0 ∧ 2 ≤ s.length then
      let secondByte := s.getD 1 0
      if secondByte &&& 0xC0 = 0x80 then
        some (((firstByte &&& 0x1F) <<< 6) ||| (secondByte &&& 0x3F))
      else none
    else if firstByte &&& 0xF0 = 0xE0 ∧ 3 ≤ s.length then
      let secondByte := s.getD 1 0
      let thirdByte := s.getD 2 0
      if secondByte &&& 0xC0 = 0x80 ∧ thirdByte &&& 0xC0 = 0x80 then
        some (((firstByte &&& 0x0F) <<< 12) ||| ((secondByte &&& 0x3F) <<< 6) |||
          (thirdByte &&& 0x3F))
      else none
    else if firstByte &&& 0xF8 = 0xF0 ∧ 4 ≤ s.length then
      let secondByte := s.getD 1 0
      let thirdByte := s.getD 2 0
      let fourthByte := s.getD 3 0
      if secondByte &&& 0xC0 = 0x80 ∧ thirdByte &&& 0xC0 = 0x80 ∧
          fourthByte &&& 0xC0 = 0x80 then
        some (((firstByte &&& 0x07) <<< 18) ||| ((secondByte &&& 0x3F) <<< 12) |||
          ((thirdByte &&& 0x3F) <<< 6) ||| (fourthByte &&& 0x3F))
      else none
    else none

/-- `utf32ToUtf8` from the output handler translation unit. -/
def utf32ToUtf8 (c : Nat) : List Nat :=
  if c ≤ 0x7F then [c]
  else if c ≤ 0x7FF then
    [0xC0 ||| ((c >>> 6) &&& 0x1F), 0x80 ||| (c &&& 0x3F)]
  else if c ≤ 0xFFFF then
    [0xE0 ||| ((c >>> 12) &&& 0x0F), 0x80 ||| ((c >>> 6) &&& 0x3F),
     0x80 ||| (c &&& 0x3F)]
  else if c ≤ 0x10FFFF then
    [0xF0 ||| ((c >>> 18) &&& 0x07), 0x80 ||| ((c >>> 12) &&& 0x3F),
     0x80 ||| ((c >>> 6) &&& 0x3F), 0x80 ||| (c &&& 0x3F)]
  else []

/-! ### `processKeyEvent` and persisted state -/

/-- The document written by `LayoutManager::saveState`: the current layout
name, current layer name, and one `toggle_<name>` entry per tracked toggle. -/
structure SavedState where
  layout : String
  layer : String
  toggles : List (String × Bool)
  deriving DecidableEq, Repr

/-- The mutable state of `LayoutManager` that event processing touches:
the layer state plus the in-memory `state` string map. -/
structure EngineState where
  layerState : LayerState
  stateMap : List (String × String)
  deriving DecidableEq, Repr

structure PKOut where
  out : Option Nat
  es : EngineState
  saved : Option SavedState
  deriving DecidableEq, Repr

def saveStateFile (stateMap : List (String × String))
    (toggles : List (String × Bool)) : SavedState :=
  { layout := (lookupA stateMap "layout").getD ""
    layer := (lookupA stateMap "layer").getD ""
    toggles := toggles }

/-- `LayoutManager::processKeyEvent`. -/
def processKeyEvent (L : Layout) (keyName : String) (keyCode : Int)
    (eventType : String) (es : EngineState) : PKOut :=
  if eventType ≠ "press" ∧ eventType ≠ "repeat" then ⟨none, es, none⟩ else
  match lookupA L.keyPositions keyName with
  | none => ⟨none, es, none⟩
  | some pos =>
    match lookupA L.layers "base" with
    | none => ⟨none, es, none⟩
    | some baseSyms =>
      if pos < baseSyms.length then
        let baseChar := baseSyms.getD pos []
        match getLayerForKey L baseChar with
        | some cfg =>
          match cfg.type with
          | LayerType.Hold =>
            ⟨none,
             { es with layerState :=
                { es.layerState with hold := cfg.targetLayer, holdKey := keyCode } },
             none⟩
          | LayerType.Toggle =>
            let n := cfg.targetLayer
            let isActive := getCurrentLayer es.layerState = n
            let newVal := !(decide isActive)
            let ls' := { es.layerState with toggles := setA es.layerState.toggles n newVal }
            let sm' := setA es.stateMap ("toggle_" ++ n)
              (if newVal then "true" else "false")
            ⟨none, ⟨ls', sm'⟩, some (saveStateFile sm' ls'.toggles)⟩
          | LayerType.Onetime =>
            ⟨none,
             { es with layerState := { es.layerState with oneTime := cfg.targetLayer } },
             none⟩
        | none =>
          let cur := getCurrentLayer es.layerState
          match lookupA L.layers cur with
          | none => ⟨none, es, none⟩
          | some syms =>
            if pos < syms.length then
              let charStr := syms.getD pos []
              let ls' := if es.layerState.oneTime ≠ "" then
                  { es.layerState with oneTime := "" }
                else es.layerState
              ⟨stringToChar32 charStr, { es with layerState := ls' }, none⟩
            else ⟨none, es, none⟩
      else ⟨none, es, none⟩

/-- `LayoutManager::shouldForwardKey`. -/
def shouldForwardKey (_shiftActive ctrlActive altActive superActive : Bool) : Bool :=
  ctrlActive || altActive || superActive

/-! ### Event traces over the engine (`main.cpp` drives these two entry points) -/

inductive KEvent
  | press (name : String) (code : Int)
  | release (code : Int)
  deriving DecidableEq, Repr

def stepEvent (L : Layout) (es : EngineState) : KEvent → EngineState
  | KEvent.press n c => (processKeyEvent L n c "press" es).es
  | KEvent.release c => { es with layerState := handleKeyRelease es.layerState c }

def runEvents (L : Layout) (es : EngineState) : List KEvent → EngineState
  | [] => es
  | e :: t => runEvents L (stepEvent L es e) t

/-! ### Emergency-exit tracker (`InputHandlerImpl::checkEmergencyExit`) -/

def KEY_ESC : Int := 1
def KEY_BACKSPACE : Int := 14
def KEY_LEFTCTRL : Int := 29
def KEY_A : Int := 30
def KEY_LEFTALT : Int := 56
def KEY_DELETE : Int := 111

def EMERGENCY_EXIT : List Int := [KEY_LEFTCTRL, KEY_LEFTALT, KEY_ESC]

structure ExitState where
  exitSequence : List Int
  exitTimeout : ℚ
  deriving DecidableEq, Repr

/-- One call of `checkEmergencyExit` for an event `(code, value)` observed at
`now` (seconds).  Returns the updated tracker state and whether `_exit(0)`
was reached. -/
def checkEmergencyExit (st : ExitState) (code : Int) (value : Int) (now : ℚ) :
    ExitState × Bool :=
  let seq := if 1 < now - st.exitTimeout then [] else st.exitSequence
  if value ≠ 1 then (⟨seq, st.exitTimeout⟩, false)
  else if code ∈ EMERGENCY_EXIT then
    let seq' := if seq = [] ∨ seq.getLast? ≠ some code then seq ++ [code] else seq
    (⟨seq', now⟩, decide (seq' = EMERGENCY_EXIT))
  else (⟨seq, st.exitTimeout⟩, false)

/-! ### Key-repeat state machine (`InputHandlerImpl`) -/

structure KeyRepeatState where
  activeKeyCode : Int
  count : Nat
  lastTime : ℚ
  initialDelay : ℚ
  repeatDelay : ℚ
  deriving DecidableEq, Repr

/-- The default-constructed `KeyRepeatState`: `initialDelay = 0.5`,
`repeatDelay = 0.06`. -/
def initKeyRepeat : KeyRepeatState :=
  { activeKeyCode := -1, count := 0, lastTime := 0,
    initialDelay := 1/2, repeatDelay := 6/100 }

/-- `InputHandlerImpl::triggerKeyRepeat` at time `now` (the `Repeat` event
emission is not modelled; only the state update). -/
def triggerKeyRepeat (s : KeyRepeatState) (now : ℚ) : KeyRepeatState :=
  let s' := { s with count := s.count + 1, lastTime := now }
  if s'.activeKeyCode = KEY_BACKSPACE ∨ s'.activeKeyCode = KEY_DELETE then
    { s' with repeatDelay := max (1/100) (5/100 - (s'.count : ℚ) * (5/1000)) }
  else s'

/-- Arming done by `processInputEvent` on a data-key down: reset the code,
count and clock.  `repeatDelay` is left as-is. -/
def armKey (s : KeyRepeatState) (code : Int) (now : ℚ) : KeyRepeatState :=
  { s with activeKeyCode := code, count := 0, lastTime := now }

/-- `InputHandlerImpl::checkKeyRepeat` at time `now`: returns whether a
`Repeat` fired together with the updated state. -/
def checkKeyRepeat (s : KeyRepeatState) (now : ℚ) : Bool × KeyRepeatState :=
  if s.activeKeyCode = -1 then (false, s)
  else if s.count = 0 then
    if s.initialDelay ≤ now - s.lastTime then (true, triggerKeyRepeat s now)
    else (false, s)
  else
    if s.repeatDelay ≤ now - s.lastTime then (true, triggerKeyRepeat s now)
    else (false, s)

def iterTrigger : Nat → KeyRepeatState → KeyRepeatState
  | 0, s => s
  | n + 1, s => iterTrigger n (triggerKeyRepeat s 0)

/-! ### Device scoring (`InputHandlerImpl::findPhysicalKeyboard`) -/

/-- `startsWith` on character lists, used to model `strstr`. -/
def startsWithC (hay nd : List Char) : Bool := decide (hay.take nd.length = nd)

/-- `strstr(hay, nd) != nullptr`: some suffix of `hay` starts with `nd`. -/
def strstrB (nd : List Char) : List Char → Bool
  | [] => startsWithC [] nd
  | c :: t => startsWithC (c :: t) nd || strstrB nd t

def kbNeedle : List Char := ['k', 'e', 'y', 'b', 'o', 'a', 'r', 'd']

/-- The candidate score computed in `findPhysicalKeyboard` steps 5–6:
endpoint `-1` means "not parseable".  Note `strstr` is case-sensitive. -/
def candidateScore (endpoint : Int) (name : List Char) : Int :=
  let base : Int := if endpoint = 0 then 100
    else if endpoint ≠ -1 then 50 - endpoint else 0
  if strstrB kbNeedle name then base + 10 else base

/-- What the specification's scoring sentence describes: the `"keyboard"`
substring test is case-insensitive.  Used to compare the spec against
`candidateScore`. -/
def specScoreCI (endpoint : Int) (name : List Char) : Int :=
  let base : Int := if endpoint = 0 then 100
    else if endpoint ≠ -1 then 50 - endpoint else 0
  if strstrB kbNeedle (name.map Char.toLower) then base + 10 else base

/-- The sort comparator over `(score, endpoint, name)` candidates. -/
def candLess (a b : Int × Int × List Char) : Bool :=
  if a.1 ≠ b.1 then decide (a.1 > b.1)
  else if a.2.1 ≠ b.2.1 then
    (if a.2.1 = -1 then false else if b.2.1 = -1 then true
     else decide (a.2.1 < b.2.1))
  else decide (a.2.2 < b.2.2)

/-! ### Persisted state at startup (`loadState` and the toggle
initialization in `loadLayout`) -/

def DEFAULT_LAYOUT : String := "default"
def DEFAULT_LAYER : String := "base"

/-- `LayoutManager::loadState`: the file is `none` when missing or when
YAML parsing throws; otherwise an association list of its scalar entries.
Only the `layout` and `layer` entries are consulted. -/
def loadState (file : Option (List (String × String))) : List (String × String) :=
  let st : List (String × String) :=
    [("layout", DEFAULT_LAYOUT), ("layer", DEFAULT_LAYER)]
  match file with
  | none => st
  | some node =>
    let st' := match lookupA node "layout" with
      | some v => setA st "layout" v
      | none => st
    match lookupA node "layer" with
      | some v => setA st' "layer" v
      | none => st'

def toLowerS (s : String) : String := ⟨s.data.map Char.toLower⟩

/-- The anonymous-namespace `parseLayerType`. -/
def parseLayerType (typeStr : String) : LayerType :=
  if toLowerS typeStr = "hold" then LayerType.Hold
  else if toLowerS typeStr = "toggle" then LayerType.Toggle
  else if toLowerS typeStr = "onetime" then LayerType.Onetime
  else LayerType.Hold

/-- The toggle-state initialization in `loadLayout` (lines 306–321): for
each `layer_keys` entry whose `type` parses to `Toggle`, the saved value is
looked up in the in-memory `state` map under `toggle_<name>`. -/
def initToggles (rawLayerKeys : List (String × Option String))
    (state : List (String × String)) : List (String × Bool) :=
  rawLayerKeys.foldl
    (fun acc e =>
      match e.2 with
      | some t =>
        if parseLayerType t = LayerType.Toggle then
          setA acc e.1 (decide (lookupA state ("toggle_" ++ e.1) = some "true"))
        else acc
      | none => acc)
    []

/-- Rendering of a `SavedState` back into the scalar entries a later
startup would read (`saveState` writes exactly these keys). -/
def renderSaved (s : SavedState) : List (String × String) :=
  [("layout", s.layout), ("layer", s.layer)] ++
    s.toggles.map (fun e => ("toggle_" ++ e.1, if e.2 then "true" else "false"))

/-! ### Dispatcher handling of Press/Repeat events (`main.cpp` lines 93–160) -/

inductive DispatchAction
  | sent (c : Nat)
  | bypassed
  | nothing
  deriving DecidableEq, Repr

/-- The dispatch-loop body for a `Press`/`Repeat` event: the layout manager
always processes the event; the resolved character is discarded under
bypass (`ctrl || alt || super`), otherwise delivered. -/
def dispatchKeyEvent (L : Layout) (es : EngineState) (name : String)
    (code : Int) (isPress : Bool) (_shift ctrl alt sup : Bool) :
    DispatchAction × EngineState :=
  let r := processKeyEvent L name code (if isPress then "press" else "repeat") es
  let bypassRemapping := ctrl || alt || sup
  if bypassRemapping then (DispatchAction.bypassed, r.es)
  else match r.out with
    | some c => (DispatchAction.sent c, r.es)
    | none => (DispatchAction.nothing, r.es)

/-! ### Spec-side predicates -/

/-- Spec-side: the layer name a key press would activate as a *hold* layer,
following §4.4 step 2/3 of the specification (base-layer symbol, cleaned,
looked up in the layer-activation map with activation type hold). -/
def specHoldActivation (L : Layout) (keyName : String) : Option String :=
  match lookupA L.keyPositions keyName with
  | none => none
  | some pos =>
    match lookupA L.layers "base" with
    | none => none
    | some baseSyms =>
      if pos < baseSyms.length then
        match getLayerForKey L (baseSyms.getD pos []) with
        | some cfg =>
          if cfg.type = LayerType.Hold then some cfg.targetLayer else none
        | none => none
      else none

/-- Spec-side: "a hold-type layer-activation key was pressed and no release
of its remembered originating key code has been observed since" — the trace
ends with a hold activation `press n c` that is the last activation and is
not followed by `release c`. -/
def HoldAliveSpec (L : Layout) (t : List KEvent) : Prop :=
  ∃ t₁ n c t₂ layer, t = t₁ ++ KEvent.press n c :: t₂ ∧
    specHoldActivation L n = some layer ∧
    (∀ n' c', KEvent.press n' c' ∈ t₂ → specHoldActivation L n' = none) ∧
    KEvent.release c ∉ t₂

/-- Spec-side: `s` is one of the five recognized escape strings. -/
def isEscapeB (s : List Nat) : Bool :=
  s = escN || s = escT || s = escB || s = escX1B || s = escSpace

/-- Spec-side: a continuation byte passes standard validation. -/
def contOKB (b : Nat) : Bool := b &&& 0xC0 = 0x80

/-- Spec-side (from the claim): the byte string is empty or malformed —
not an escape, and its leading byte either fits no UTF-8 class whose length
is available, or some required continuation byte fails validation. -/
def utf8MalformedB (s : List Nat) : Bool :=
  !isEscapeB s &&
  match s with
  | [] => true
  | b :: _ =>
    !(b &&& 0x80 = 0 : Bool) &&
    (!(b &&& 0xE0 = 0xC0 ∧ 2 ≤ s.length : Bool) || !contOKB (s.getD 1 0)) &&
    (!(b &&& 0xF0 = 0xE0 ∧ 3 ≤ s.length : Bool) ||
      !(contOKB (s.getD 1 0) && contOKB (s.getD 2 0))) &&
    (!(b &&& 0xF8 = 0xF0 ∧ 4 ≤ s.length : Bool) ||
      !(contOKB (s.getD 1 0) && contOKB (s.getD 2 0) && contOKB (s.getD 3 0)))

/-! ### Concrete fixtures used by counterexamples and witnesses -/

def symX : List Nat := [0x78]
def symY : List Nat := [0x79]
def symN : List Nat := [0x6E]
def symZZ : List Nat := [0x7A, 0x7A]
def symLySym : List Nat := [0x6C, 0x79, 0x73, 0x79, 0x6D]
def symLyNav : List Nat := [0x6C, 0x79, 0x6E, 0x61, 0x76]
def symLyOo : List Nat := [0x6C, 0x79, 0x6F, 0x6F]

/-- A small post-load layout: one toggle layer `sym`, one hold layer `nav`,
one onetime activation targeting a layer `oo` that has no table, and a
symbol `zz` registered in `layerKeys` without the `ly` prefix. -/
def exLayout : Layout :=
  { keyPositions := [("key_a", 0), ("key_b", 1), ("key_c", 2), ("key_d", 3),
      ("key_e", 4)]
    layers := [("base", [symX, symLySym, symLyNav, symLyOo, symZZ]),
               ("sym", [symY, symY, symY, symY, symY]),
               ("nav", [symN, symN, symN, symN, symN])]
    layerKeys := [(symLySym, ⟨"sym", LayerType.Toggle⟩),
                  (symLyNav, ⟨"nav", LayerType.Hold⟩),
                  (symLyOo, ⟨"oo", LayerType.Onetime⟩),
                  (symZZ, ⟨"bogus", LayerType.Hold⟩)] }

/-- The engine state right after a default startup with `exLayout`. -/
def exInit : EngineState :=
  { layerState :=
      { current := "base", toggles := [("sym", false)], oneTime := "",
        hold := "", holdKey := -1 }
    stateMap := [("layout", "default"), ("layer", "base")] }

def nameUSBKeyboard : List Char :=
  ['U', 'S', 'B', ' ', 'K', 'e', 'y', 'b', 'o', 'a', 'r', 'd']

def nameSomeDevice : List Char :=
  ['S', 'o', 'm', 'e', ' ', 'D', 'e', 'v', 'i', 'c', 'e']

/-! ## Claim theorems -/

/-- **C1** (failing-input evaluation). A state file written by `saveState`
with `toggle_sym: true` is read back by `loadState`, but `loadState` copies
only the `layout` and `layer` entries, so the toggle initialization in
`loadLayout` restores `sym` as `false`: the saved toggle boolean is *not*
restored into `LayerState`, although it is present in the file.  The
missing/corrupt fallback (defaults, all toggles false) does hold. -/
theorem toggle_state_not_restored :
    loadState (some (renderSaved ⟨"default", "base", [("sym", true)]⟩))
      = [("layout", "default"), ("layer", "base")] ∧
    lookupA (renderSaved ⟨"default", "base", [("sym", true)]⟩) "toggle_sym"
      = some "true" ∧
    initToggles [("sym", some "toggle")]
      (loadState (some (renderSaved ⟨"default", "base", [("sym", true)]⟩)))
      = [("sym", false)] ∧
    loadState none = [("layout", DEFAULT_LAYOUT), ("layer", DEFAULT_LAYER)] ∧
    initToggles [("sym", some "toggle")] (loadState none) = [("sym", false)] := by
  decide

/-- **C4** (failing-input evaluation). The default repeat delay is `0.06`
(60 ms), not the 50 ms the code's own comment and the claim state: after a
first repeat of an ordinary key, no repeat fires 50 ms later, only 60 ms
later.  The backspace/delete schedule itself does shrink by 5 ms per repeat
to a 10 ms floor — but `repeatDelay` is not reset when a different key is
armed, so after backspace acceleration an ordinary key repeats at 10 ms. -/
theorem keyRepeat_divergence :
    initKeyRepeat.repeatDelay = 6/100 ∧ (6/100 : ℚ) ≠ 5/100 ∧
    (let s1 := triggerKeyRepeat (armKey initKeyRepeat KEY_A 0) (1/2)
     (checkKeyRepeat s1 (1/2 + 5/100)).1 = false ∧
       (checkKeyRepeat s1 (1/2 + 6/100)).1 = true) ∧
    (iterTrigger 1 (armKey initKeyRepeat KEY_BACKSPACE 0)).repeatDelay
      = 45/1000 ∧
    (iterTrigger 8 (armKey initKeyRepeat KEY_BACKSPACE 0)).repeatDelay
      = 1/100 ∧
    (iterTrigger 12 (armKey initKeyRepeat KEY_BACKSPACE 0)).repeatDelay
      = 1/100 ∧
    (armKey (iterTrigger 8 (armKey initKeyRepeat KEY_BACKSPACE 0)) KEY_A 0
      ).repeatDelay = 1/100 := by
  norm_num [iterTrigger, triggerKeyRepeat, armKey, initKeyRepeat,
    checkKeyRepeat, KEY_A, KEY_BACKSPACE, KEY_DELETE]

/-- **C3** (counterexample). The claim's score formula adds 10 for a
case-insensitive `"keyboard"` substring and predicts 58 for an endpoint-2
candidate named "USB Keyboard"; the code uses case-sensitive `strstr` and
scores it 48. -/
theorem deviceScore_case_insensitive_false :
    candidateScore 2 nameUSBKeyboard = 48 ∧
    specScoreCI 2 nameUSBKeyboard = 58 ∧
    candidateScore 2 nameUSBKeyboard ≠ specScoreCI 2 nameUSBKeyboard := by
  decide

/-- **C5** (counterexample). With toggle `sym` stored `true` but shadowed
by the active hold layer `nav`, pressing the toggle key leaves `sym` at
`true`: the stored boolean is *not* negated relative to its previous value
in every layer state. -/
theorem toggle_flip_counterexample :
    lookupA (runEvents exLayout exInit
        [KEvent.press "key_b" 2, KEvent.press "key_c" 3]
      ).layerState.toggles "sym" = some true ∧
    (runEvents exLayout exInit
        [KEvent.press "key_b" 2, KEvent.press "key_c" 3]
      ).layerState.hold = "nav" ∧
    lookupA (runEvents exLayout exInit
        [KEvent.press "key_b" 2, KEvent.press "key_c" 3,
         KEvent.press "key_b" 2]).layerState.toggles "sym" = some true := by
  decide

/-- **C6** (counterexample). An armed onetime layer whose name has no
entry in the layer table is *not* cleared by the next character resolution:
`processKeyEvent` on an ordinary key returns no character and leaves the
onetime layer armed, so it stays current for further resolutions. -/
theorem onetime_not_cleared_counterexample :
    (stepEvent exLayout exInit (KEvent.press "key_d" 4)).layerState.oneTime
      = "oo" ∧
    (processKeyEvent exLayout "key_a" 1 "press"
        (stepEvent exLayout exInit (KEvent.press "key_d" 4))).out = none ∧
    (processKeyEvent exLayout "key_a" 1 "press"
        (stepEvent exLayout exInit (KEvent.press "key_d" 4))
      ).es.layerState.oneTime = "oo" ∧
    getCurrentLayer (processKeyEvent exLayout "key_a" 1 "press"
        (stepEvent exLayout exInit (KEvent.press "key_d" 4))
      ).es.layerState = "oo" := by
  decide

/-- **C7** (counterexample). A reachable state in which a hold-type
activation key was pressed (and its originating code never released) but
the hold layer is *not* the current layer, because an armed onetime layer
shadows it. -/
theorem hold_current_iff_counterexample :
    (runEvents exLayout exInit
        [KEvent.press "key_d" 4, KEvent.press "key_c" 3]).layerState.hold
      = "nav" ∧
    (runEvents exLayout exInit
        [KEvent.press "key_d" 4, KEvent.press "key_c" 3]).layerState.holdKey
      = 3 ∧
    HoldAliveSpec exLayout [KEvent.press "key_d" 4, KEvent.press "key_c" 3] ∧
    getCurrentLayer (runEvents exLayout exInit
        [KEvent.press "key_d" 4, KEvent.press "key_c" 3]).layerState
      ≠ "nav" := by
  refine ⟨by decide, by decide,
    ⟨[KEvent.press "key_d" 4], "key_c", 3, [], "nav", rfl, by decide, ?_, ?_⟩,
    by decide⟩
  · intro n' c' h
    simp at h
  · simp

/-- **C2**. The emergency-exit tracker: a chord key-down terminates exactly
when the accumulated sequence equals Ctrl, Alt, Esc in order; the chord
pressed in order within 1 s of each step (from a stale tracker) terminates;
a gap exceeding 1 s resets progress so that press cannot terminate; a
repeated chord key does not advance progress; key-up events and non-chord
keys never terminate. -/
theorem emergencyExit_spec :
    (∀ st code now, code ∈ EMERGENCY_EXIT →
      ((checkEmergencyExit st code 1 now).2 = true ↔
        (checkEmergencyExit st code 1 now).1.exitSequence = EMERGENCY_EXIT)) ∧
    (∀ st t₁ t₂ t₃, 1 < t₁ - st.exitTimeout → t₂ - t₁ ≤ 1 → t₃ - t₂ ≤ 1 →
      (checkEmergencyExit
        (checkEmergencyExit
          (checkEmergencyExit st KEY_LEFTCTRL 1 t₁).1 KEY_LEFTALT 1 t₂).1
        KEY_ESC 1 t₃).2 = true) ∧
    (∀ st code now, code ∈ EMERGENCY_EXIT → 1 < now - st.exitTimeout →
      (checkEmergencyExit st code 1 now).1.exitSequence = [code] ∧
      (checkEmergencyExit st code 1 now).2 = false) ∧
    (∀ st code now, code ∈ EMERGENCY_EXIT → ¬ 1 < now - st.exitTimeout →
      st.exitSequence.getLast? = some code →
      (checkEmergencyExit st code 1 now).1.exitSequence = st.exitSequence) ∧
    (∀ st code value now, value ≠ 1 ∨ code ∉ EMERGENCY_EXIT →
      (checkEmergencyExit st code value now).2 = false) := by
  refine ⟨?_, ?_, ?_, ?_, ?_⟩
  · intro st code now hmem
    simp only [checkEmergencyExit, if_neg (by simp : ¬(1 : Int) ≠ 1),
      if_pos hmem]
    split <;> simp
  · intro st t₁ t₂ t₃ h₁ h₂ h₃
    have hs₂ : ¬ 1 < t₂ - t₁ := by linarith
    have hs₃ : ¬ 1 < t₃ - t₂ := by linarith
    have e₁ : checkEmergencyExit st KEY_LEFTCTRL 1 t₁
        = (⟨[KEY_LEFTCTRL], t₁⟩, false) := by
      simp [checkEmergencyExit, h₁, EMERGENCY_EXIT, KEY_LEFTCTRL, KEY_LEFTALT,
        KEY_ESC]
    rw [e₁]
    have e₂ : checkEmergencyExit ⟨[KEY_LEFTCTRL], t₁⟩ KEY_LEFTALT 1 t₂
        = (⟨[KEY_LEFTCTRL, KEY_LEFTALT], t₂⟩, false) := by
      simp [checkEmergencyExit, hs₂, EMERGENCY_EXIT, KEY_LEFTCTRL, KEY_LEFTALT,
        KEY_ESC]
    rw [e₂]
    simp [checkEmergencyExit, hs₃, EMERGENCY_EXIT, KEY_LEFTCTRL, KEY_LEFTALT,
      KEY_ESC]
  · intro st code now hmem hstale
    constructor
    · simp [checkEmergencyExit, hstale, hmem]
    · simp only [checkEmergencyExit, if_pos hstale,
        if_neg (by simp : ¬(1 : Int) ≠ 1), if_pos hmem]
      simp [EMERGENCY_EXIT]
  · intro st code now hmem hfresh hlast
    have hne : ¬ (st.exitSequence = [] ∨
        st.exitSequence.getLast? ≠ some code) := by
      intro h
      rcases h with h | h
      · rw [h] at hlast
        simp at hlast
      · exact h hlast
    simp only [checkEmergencyExit, if_neg hfresh,
      if_neg (by simp : ¬(1 : Int) ≠ 1), if_pos hmem, if_neg hne]
  · intro st code value now h
    rcases h with h | h
    · simp [checkEmergencyExit, h]
    · simp only [checkEmergencyExit]
      split
      · rfl
      · simp [h]

/-- **C2** witness: from a stale tracker at time 0, pressing Ctrl at 2 s,
Alt at 2.5 s and Esc at 3 s terminates the process. -/
theorem emergencyExit_spec_witness :
    (checkEmergencyExit
      (checkEmergencyExit
        (checkEmergencyExit ⟨[], 0⟩ KEY_LEFTCTRL 1 2).1 KEY_LEFTALT 1 (5/2)).1
      KEY_ESC 1 3).2 = true :=
  emergencyExit_spec.2.1 ⟨[], 0⟩ 2 (5/2) 3 (by norm_num) (by norm_num)
    (by norm_num)

/-! ### C3 amended: case-sensitive substring scoring -/

lemma startsWithC_iff (hay nd : List Char) :
    startsWithC hay nd = true ↔ ∃ r, hay = nd ++ r := by
  unfold startsWithC
  simp only [decide_eq_true_eq]
  constructor
  · intro h
    refine ⟨hay.drop nd.length, ?_⟩
    conv_lhs => rw [← List.take_append_drop nd.length hay]
    rw [h]
  · rintro ⟨r, rfl⟩
    simp

lemma strstrB_iff (nd hay : List Char) :
    strstrB nd hay = true ↔ ∃ l r, hay = l ++ nd ++ r := by
  induction hay with
  | nil =>
    rw [strstrB, startsWithC_iff]
    constructor
    · rintro ⟨r, h⟩
      exact ⟨[], r, by simpa using h⟩
    · rintro ⟨l, r, h⟩
      rcases List.append_eq_nil.1 h.symm with ⟨h1, h2⟩
      rcases List.append_eq_nil.1 h1 with ⟨h3, h4⟩
      exact ⟨[], by simp [h2, h4]⟩
  | cons c t ih =>
    rw [strstrB, Bool.or_eq_true, ih, startsWithC_iff]
    constructor
    · rintro (⟨r, h⟩ | ⟨l, r, h⟩)
      · exact ⟨[], r, by simpa using h⟩
      · exact ⟨c :: l, r, by simp [h]⟩
    · rintro ⟨l, r, h⟩
      cases l with
      | nil =>
        exact Or.inl ⟨r, by simpa using h⟩
      | cons x l' =>
        right
        rw [List.cons_append, List.cons_append] at h
        injection h with h1 h2
        exact ⟨l', r, h2⟩

def nameUsbLower : List Char :=
  ['u', 's', 'b', ' ', 'k', 'e', 'y', 'b', 'o', 'a', 'r', 'd']

/-- **C3** (amended). For every candidate, the score is the endpoint base
(100 for endpoint 0, else 50 − endpoint when parsed, else 0) plus 10
exactly when the name contains `"keyboard"` as a *case-sensitive*
substring; the endpoint-2 "USB Keyboard" candidate scores 48, and the
endpoint-0 candidate (score 100) sorts ahead of it and is selected. -/
theorem deviceScore_amended :
    (∀ nd hay, strstrB nd hay = true ↔ ∃ l r, hay = l ++ nd ++ r) ∧
    (∀ e n, (∃ l r, n = l ++ kbNeedle ++ r) →
      candidateScore e n =
        (if e = 0 then 100 else if e ≠ -1 then 50 - e else 0) + 10) ∧
    (∀ e n, ¬ (∃ l r, n = l ++ kbNeedle ++ r) →
      candidateScore e n =
        (if e = 0 then 100 else if e ≠ -1 then 50 - e else 0)) ∧
    candidateScore 0 nameSomeDevice = 100 ∧
    candidateScore 2 nameUSBKeyboard = 48 ∧
    candLess (100, 0, nameSomeDevice) (48, 2, nameUSBKeyboard) = true ∧
    candLess (48, 2, nameUSBKeyboard) (100, 0, nameSomeDevice) = false := by
  refine ⟨strstrB_iff, ?_, ?_, by decide, by decide, by decide, by decide⟩
  · intro e n h
    have hs := (strstrB_iff kbNeedle n).mpr h
    simp [candidateScore, hs]
  · intro e n h
    have hs : strstrB kbNeedle n = false := by
      rw [← Bool.not_eq_true, strstrB_iff]
      exact h
    simp [candidateScore, hs]

/-- **C3** amended witness: the all-lowercase "usb keyboard" name with
endpoint 2 does get the +10 bonus and scores 58. -/
theorem deviceScore_amended_witness : candidateScore 2 nameUsbLower = 58 := by
  have h := deviceScore_amended.2.1 2 nameUsbLower
    ⟨['u', 's', 'b', ' '], [], by decide⟩
  simpa using h

/-! ### Branch lemmas for `processKeyEvent` -/

lemma processKeyEvent_hold (L : Layout) (n : String) (c : Int) (ty : String)
    (es : EngineState) (pos : Nat) (baseSyms : List (List Nat))
    (cfg : LayerKeyConfig)
    (hty : ty = "press" ∨ ty = "repeat")
    (hp : lookupA L.keyPositions n = some pos)
    (hb : lookupA L.layers "base" = some baseSyms)
    (hlt : pos < baseSyms.length)
    (hk : getLayerForKey L (baseSyms.getD pos []) = some cfg)
    (hc : cfg.type = LayerType.Hold) :
    processKeyEvent L n c ty es =
      ⟨none,
       { es with layerState :=
          { es.layerState with hold := cfg.targetLayer, holdKey := c } },
       none⟩ := by
  rw [List.getD_eq_getElem?_getD, List.getElem?_eq_getElem hlt,
    Option.getD_some] at hk
  rcases hty with rfl | rfl <;> simp [processKeyEvent, hp, hb, hlt, hk, hc]

lemma processKeyEvent_toggle (L : Layout) (n : String) (c : Int) (ty : String)
    (es : EngineState) (pos : Nat) (baseSyms : List (List Nat))
    (cfg : LayerKeyConfig)
    (hty : ty = "press" ∨ ty = "repeat")
    (hp : lookupA L.keyPositions n = some pos)
    (hb : lookupA L.layers "base" = some baseSyms)
    (hlt : pos < baseSyms.length)
    (hk : getLayerForKey L (baseSyms.getD pos []) = some cfg)
    (hc : cfg.type = LayerType.Toggle) :
    processKeyEvent L n c ty es =
      (let newVal := !(decide (getCurrentLayer es.layerState = cfg.targetLayer))
       let ls' := { es.layerState with
          toggles := setA es.layerState.toggles cfg.targetLayer newVal }
       let sm' := setA es.stateMap ("toggle_" ++ cfg.targetLayer)
          (if newVal then "true" else "false")
       ⟨none, ⟨ls', sm'⟩, some (saveStateFile sm' ls'.toggles)⟩) := by
  rw [List.getD_eq_getElem?_getD, List.getElem?_eq_getElem hlt,
    Option.getD_some] at hk
  rcases hty with rfl | rfl <;> simp [processKeyEvent, hp, hb, hlt, hk, hc]

lemma processKeyEvent_onetime (L : Layout) (n : String) (c : Int) (ty : String)
    (es : EngineState) (pos : Nat) (baseSyms : List (List Nat))
    (cfg : LayerKeyConfig)
    (hty : ty = "press" ∨ ty = "repeat")
    (hp : lookupA L.keyPositions n = some pos)
    (hb : lookupA L.layers "base" = some baseSyms)
    (hlt : pos < baseSyms.length)
    (hk : getLayerForKey L (baseSyms.getD pos []) = some cfg)
    (hc : cfg.type = LayerType.Onetime) :
    processKeyEvent L n c ty es =
      ⟨none,
       { es with layerState := { es.layerState with oneTime := cfg.targetLayer } },
       none⟩ := by
  rw [List.getD_eq_getElem?_getD, List.getElem?_eq_getElem hlt,
    Option.getD_some] at hk
  rcases hty with rfl | rfl <;> simp [processKeyEvent, hp, hb, hlt, hk, hc]

lemma processKeyEvent_char_missing (L : Layout) (n : String) (c : Int)
    (ty : String) (es : EngineState) (pos : Nat) (baseSyms : List (List Nat))
    (hty : ty = "press" ∨ ty = "repeat")
    (hp : lookupA L.keyPositions n = some pos)
    (hb : lookupA L.layers "base" = some baseSyms)
    (hlt : pos < baseSyms.length)
    (hk : getLayerForKey L (baseSyms.getD pos []) = none)
    (hcur : lookupA L.layers (getCurrentLayer es.layerState) = none) :
    processKeyEvent L n c ty es = ⟨none, es, none⟩ := by
  rw [List.getD_eq_getElem?_getD, List.getElem?_eq_getElem hlt,
    Option.getD_some] at hk
  rcases hty with rfl | rfl <;> simp [processKeyEvent, hp, hb, hlt, hk, hcur]

lemma processKeyEvent_char_oob (L : Layout) (n : String) (c : Int)
    (ty : String) (es : EngineState) (pos : Nat) (baseSyms : List (List Nat))
    (syms : List (List Nat))
    (hty : ty = "press" ∨ ty = "repeat")
    (hp : lookupA L.keyPositions n = some pos)
    (hb : lookupA L.layers "base" = some baseSyms)
    (hlt : pos < baseSyms.length)
    (hk : getLayerForKey L (baseSyms.getD pos []) = none)
    (hcur : lookupA L.layers (getCurrentLayer es.layerState) = some syms)
    (hlt2 : ¬ pos < syms.length) :
    processKeyEvent L n c ty es = ⟨none, es, none⟩ := by
  rw [List.getD_eq_getElem?_getD, List.getElem?_eq_getElem hlt,
    Option.getD_some] at hk
  rcases hty with rfl | rfl <;>
    simp [processKeyEvent, hp, hb, hlt, hk, hcur, hlt2]

lemma processKeyEvent_char_ok (L : Layout) (n : String) (c : Int)
    (ty : String) (es : EngineState) (pos : Nat) (baseSyms : List (List Nat))
    (syms : List (List Nat))
    (hty : ty = "press" ∨ ty = "repeat")
    (hp : lookupA L.keyPositions n = some pos)
    (hb : lookupA L.layers "base" = some baseSyms)
    (hlt : pos < baseSyms.length)
    (hk : getLayerForKey L (baseSyms.getD pos []) = none)
    (hcur : lookupA L.layers (getCurrentLayer es.layerState) = some syms)
    (hlt2 : pos < syms.length) :
    processKeyEvent L n c ty es =
      ⟨stringToChar32 (syms.getD pos []),
       { es with layerState :=
          if es.layerState.oneTime ≠ "" then
            { es.layerState with oneTime := "" }
          else es.layerState },
       none⟩ := by
  rw [List.getD_eq_getElem?_getD, List.getElem?_eq_getElem hlt,
    Option.getD_some] at hk
  rw [List.getD_eq_getElem?_getD (l := syms), List.getElem?_eq_getElem hlt2,
    Option.getD_some]
  rcases hty with rfl | rfl <;>
    simp [processKeyEvent, hp, hb, hlt, hk, hcur, hlt2]

/-- **C9**. For every Press/Repeat event the dispatcher always advances the
layer engine via `processKeyEvent` (also under bypass); a character is
delivered exactly when no bypass modifier is active and a character was
resolved; the event is bypassed exactly when Ctrl, Alt or Super is active
(`shouldForwardKey` computes the same condition, so Shift alone never
bypasses); and a hold-type layer-activation key pressed under bypass is
still recognized and consumed. -/
theorem dispatch_bypass_spec :
    (∀ L es n c ip sh ctrl alt sup,
      (dispatchKeyEvent L es n c ip sh ctrl alt sup).2
        = (processKeyEvent L n c (if ip then "press" else "repeat") es).es) ∧
    (∀ L es n c ip sh ctrl alt sup ch,
      (dispatchKeyEvent L es n c ip sh ctrl alt sup).1 = DispatchAction.sent ch
        ↔ (ctrl || alt || sup) = false ∧
          (processKeyEvent L n c (if ip then "press" else "repeat") es).out
            = some ch) ∧
    (∀ L es n c ip sh ctrl alt sup,
      (dispatchKeyEvent L es n c ip sh ctrl alt sup).1
          = DispatchAction.bypassed
        ↔ (ctrl || alt || sup) = true) ∧
    (∀ sh ctrl alt sup, shouldForwardKey sh ctrl alt sup
      = (ctrl || alt || sup)) ∧
    (∀ L es n c ip sh pos baseSyms cfg,
      lookupA L.keyPositions n = some pos →
      lookupA L.layers "base" = some baseSyms →
      pos < baseSyms.length →
      getLayerForKey L (baseSyms.getD pos []) = some cfg →
      cfg.type = LayerType.Hold →
      (dispatchKeyEvent L es n c ip sh true false false).2.layerState.hold
          = cfg.targetLayer ∧
        (dispatchKeyEvent L es n c ip sh true false false).1
          = DispatchAction.bypassed) := by
  refine ⟨?_, ?_, ?_, ?_, ?_⟩
  · intro L es n c ip sh ctrl alt sup
    cases hb : (ctrl || alt || sup) <;>
      cases ho : (processKeyEvent L n c (if ip then "press" else "repeat")
          es).out <;>
      simp [dispatchKeyEvent, hb, ho]
  · intro L es n c ip sh ctrl alt sup ch
    cases hb : (ctrl || alt || sup) <;>
      cases ho : (processKeyEvent L n c (if ip then "press" else "repeat")
          es).out <;>
      simp [dispatchKeyEvent, hb, ho]
  · intro L es n c ip sh ctrl alt sup
    cases hb : (ctrl || alt || sup) <;>
      cases ho : (processKeyEvent L n c (if ip then "press" else "repeat")
          es).out <;>
      simp [dispatchKeyEvent, hb, ho]
  · intro sh ctrl alt sup
    rfl
  · intro L es n c ip sh pos baseSyms cfg hp hbase hlt hk hc
    have hh := processKeyEvent_hold L n c (if ip then "press" else "repeat") es
      pos baseSyms cfg (by cases ip <;> simp) hp hbase hlt hk hc
    constructor
    · simp [dispatchKeyEvent, hh]
    · simp [dispatchKeyEvent]

/-- **C9** witness: pressing the hold-activation key `key_c` with Ctrl held
is bypassed yet still activates the hold layer `nav`. -/
theorem dispatch_bypass_spec_witness :
    (dispatchKeyEvent exLayout exInit "key_c" 3 true false true false
        false).2.layerState.hold = "nav" ∧
      (dispatchKeyEvent exLayout exInit "key_c" 3 true false true false
        false).1 = DispatchAction.bypassed :=
  dispatch_bypass_spec.2.2.2.2 exLayout exInit "key_c" 3 true false 2
    [symX, symLySym, symLyNav, symLyOo, symZZ] ⟨"nav", LayerType.Hold⟩
    (by decide) (by decide) (by decide) (by decide) (by decide)

/-- **C10**. A key is treated as a layer-activation key only when its
cleaned base-layer symbol starts with `"ly"`: `getLayerForKey` succeeds
only on such symbols, and a press/repeat of any key whose cleaned base
symbol lacks the prefix leaves the hold/toggle state and the persisted
state untouched and resolves through the current layer's symbol table as
an ordinary character position — regardless of whether the symbol is
registered in the layer-key configuration. -/
theorem layer_key_prefix_spec :
    (∀ L baseChar cfg, getLayerForKey L baseChar = some cfg →
      startsWithB (cleanChar baseChar) lyBytes = true) ∧
    (∀ L n c ty es pos baseSyms, (ty = "press" ∨ ty = "repeat") →
      lookupA L.keyPositions n = some pos →
      lookupA L.layers "base" = some baseSyms →
      pos < baseSyms.length →
      startsWithB (cleanChar (baseSyms.getD pos [])) lyBytes = false →
      (processKeyEvent L n c ty es).es.layerState.hold
          = es.layerState.hold ∧
        (processKeyEvent L n c ty es).es.layerState.holdKey
          = es.layerState.holdKey ∧
        (processKeyEvent L n c ty es).es.layerState.toggles
          = es.layerState.toggles ∧
        (processKeyEvent L n c ty es).saved = none ∧
        (∀ syms, lookupA L.layers (getCurrentLayer es.layerState) = some syms →
          pos < syms.length →
          (processKeyEvent L n c ty es).out
            = stringToChar32 (syms.getD pos []))) := by
  constructor
  · intro L baseChar cfg h
    simp only [getLayerForKey] at h
    split at h
    · rename_i hcond
      exact hcond.2
    · exact absurd h (by simp)
  · intro L n c ty es pos baseSyms hty hp hbase hlt hpre
    have hk : getLayerForKey L (baseSyms.getD pos []) = none := by
      simp only [getLayerForKey]
      rw [if_neg]
      intro hcond
      rw [hpre] at hcond
      exact Bool.false_ne_true hcond.2
    cases hcur : lookupA L.layers (getCurrentLayer es.layerState) with
    | none =>
      rw [processKeyEvent_char_missing L n c ty es pos baseSyms hty hp hbase
        hlt hk hcur]
      refine ⟨rfl, rfl, rfl, rfl, ?_⟩
      intro syms' hcur' hlt'
      exact Option.noConfusion hcur'
    | some syms =>
      by_cases hlt2 : pos < syms.length
      · rw [processKeyEvent_char_ok L n c ty es pos baseSyms syms hty hp hbase
          hlt hk hcur hlt2]
        refine ⟨?_, ?_, ?_, rfl, ?_⟩
        · split <;> rfl
        · split <;> rfl
        · split <;> rfl
        · intro syms' hcur' hlt'
          injection hcur' with h
          subst h
          rfl
      · rw [processKeyEvent_char_oob L n c ty es pos baseSyms syms hty hp hbase
          hlt hk hcur hlt2]
        refine ⟨rfl, rfl, rfl, rfl, ?_⟩
        intro syms' hcur' hlt'
        injection hcur' with h
        subst h
        exact absurd hlt' hlt2

/-- **C10** witness: the base symbol `zz` at `key_e` is registered in
`layerKeys` but lacks the `ly` prefix, so pressing `key_e` resolves the
ordinary character `z` and changes no layer state. -/
theorem layer_key_prefix_spec_witness :
    (processKeyEvent exLayout "key_e" 5 "press" exInit).out = some 0x7A ∧
      (processKeyEvent exLayout "key_e" 5 "press" exInit).es.layerState.toggles
        = exInit.layerState.toggles ∧
      lookupA exLayout.layerKeys symZZ = some ⟨"bogus", LayerType.Hold⟩ := by
  have h := layer_key_prefix_spec.2 exLayout "key_e" 5 "press" exInit 4
    [symX, symLySym, symLyNav, symLyOo, symZZ] (Or.inl rfl) (by decide)
    (by decide) (by decide) (by decide)
  refine ⟨?_, h.2.2.1, by decide⟩
  have ho := h.2.2.2.2 [symX, symLySym, symLyNav, symLyOo, symZZ]
    (by decide) (by decide)
  rw [ho]
  decide

/-! ### Toggle-resolution helper lemmas -/

/-- The layer `getCurrentLayer` resolves to when no onetime or hold layer is
active: the first active toggle, else `"base"`. -/
def curOf (T : List (String × Bool)) : String :=
  match firstActiveToggle T with
  | some m => m
  | none => "base"

lemma curOf_cons_false (k : String) (t : List (String × Bool)) :
    curOf ((k, false) :: t) = curOf t := by
  simp [curOf, firstActiveToggle]

lemma curOf_cons_true (k : String) (t : List (String × Bool)) :
    curOf ((k, true) :: t) = k := by
  simp [curOf, firstActiveToggle]

lemma getCurrentLayer_eq_curOf (ls : LayerState) (h1 : ls.oneTime = "")
    (h2 : ls.hold = "") : getCurrentLayer ls = curOf ls.toggles := by
  simp only [getCurrentLayer, h1, h2, ne_eq, not_true_eq_false, if_false,
    curOf]

lemma getCurrentLayer_fields (cur : String) (T : List (String × Bool))
    (o h : String) (k : Int) (ho : o = "") (hh : h = "") :
    getCurrentLayer ⟨cur, T, o, h, k⟩ = curOf T := by
  subst ho
  subst hh
  simp [getCurrentLayer, curOf]

lemma firstActiveToggle_mem (T : List (String × Bool)) (m : String)
    (h : firstActiveToggle T = some m) : m ∈ T.map Prod.fst := by
  induction T with
  | nil => simp [firstActiveToggle] at h
  | cons p t ih =>
    obtain ⟨k, b⟩ := p
    cases b
    · simp only [firstActiveToggle, Bool.false_eq_true, if_false] at h
      simp [ih h]
    · simp only [firstActiveToggle, if_true] at h
      injection h with h
      simp [h]

lemma lookupA_of_firstActive (T : List (String × Bool)) (m : String)
    (hnd : (T.map Prod.fst).Nodup) (h : firstActiveToggle T = some m) :
    lookupA T m = some true := by
  induction T with
  | nil => simp [firstActiveToggle] at h
  | cons p t ih =>
    obtain ⟨k, b⟩ := p
    simp only [List.map_cons, List.nodup_cons] at hnd
    cases b
    · simp only [firstActiveToggle, Bool.false_eq_true, if_false] at h
      have hm := firstActiveToggle_mem t m h
      have hk : ¬ k = m := fun e => hnd.1 (e ▸ hm)
      simp [lookupA, hk, ih hnd.2 h]
    · simp only [firstActiveToggle, if_true] at h
      injection h with h
      simp [lookupA, h]

lemma setA_setA {α β : Type} [DecidableEq α] (T : List (α × β)) (k : α)
    (a b : β) : setA (setA T k a) k b = setA T k b := by
  induction T with
  | nil => simp [setA]
  | cons p t ih =>
    obtain ⟨k', v⟩ := p
    by_cases h : k' = k
    · simp [setA, h]
    · simp [setA, h, ih]

lemma setA_id {α β : Type} [DecidableEq α] (T : List (α × β)) (k : α) (v : β)
    (h : lookupA T k = some v) : setA T k v = T := by
  induction T with
  | nil => simp [lookupA] at h
  | cons p t ih =>
    obtain ⟨k', v'⟩ := p
    by_cases hk : k' = k
    · subst hk
      simp only [lookupA, if_pos rfl] at h
      injection h with h
      simp [setA, h]
    · simp only [lookupA, if_neg hk] at h
      simp [setA, hk, ih h]

lemma firstActive_setA_false_ne (T : List (String × Bool)) (nm m : String)
    (hnd : (T.map Prod.fst).Nodup)
    (h : firstActiveToggle (setA T nm false) = some m) : m ≠ nm := by
  induction T with
  | nil => simp [setA, firstActiveToggle] at h
  | cons p t ih =>
    obtain ⟨k, b⟩ := p
    simp only [List.map_cons, List.nodup_cons] at hnd
    by_cases hk : k = nm
    · subst hk
      simp only [setA, if_pos rfl, firstActiveToggle, Bool.false_eq_true,
        if_false] at h
      have hm := firstActiveToggle_mem t m h
      exact fun e => hnd.1 (e ▸ hm)
    · simp only [setA, if_neg hk] at h
      cases b
      · simp only [firstActiveToggle, Bool.false_eq_true, if_false] at h
        exact ih hnd.2 h
      · simp only [firstActiveToggle, if_true] at h
        injection h with h
        exact fun e => hk (h ▸ e)

lemma curOf_setA_false (T : List (String × Bool)) (nm : String)
    (h : curOf T ≠ nm) : curOf (setA T nm false) = curOf T := by
  induction T with
  | nil => simp [setA, curOf_cons_false]
  | cons p t ih =>
    obtain ⟨k, b⟩ := p
    by_cases hk : k = nm
    · subst hk
      cases b
      · simp [setA]
      · exact absurd (curOf_cons_true k t) h
    · cases b
      · rw [curOf_cons_false] at h
        show curOf (setA ((k, false) :: t) nm false) = _
        simp only [setA, if_neg hk]
        rw [curOf_cons_false, curOf_cons_false, ih h]
      · show curOf (setA ((k, true) :: t) nm false) = _
        simp only [setA, if_neg hk]
        rw [curOf_cons_true, curOf_cons_true]

lemma curOf_setA_true_ne (T : List (String × Bool)) (nm : String)
    (h : curOf (setA T nm true) ≠ nm) :
    curOf (setA T nm true) = curOf T := by
  induction T with
  | nil =>
    exact absurd (by simp [setA, curOf_cons_true]) h
  | cons p t ih =>
    obtain ⟨k, b⟩ := p
    by_cases hk : k = nm
    · subst hk
      exact absurd (by simp [setA, curOf_cons_true]) h
    · cases b
      · simp only [setA, if_neg hk] at h ⊢
        rw [curOf_cons_false] at h ⊢
        rw [curOf_cons_false, ih h]
      · simp only [setA, if_neg hk] at h ⊢
        rw [curOf_cons_true, curOf_cons_true]

/-- Pressing the same toggle key twice restores the resolved toggle layer. -/
lemma curOf_double_set (T : List (String × Bool)) (nm : String)
    (hnd : (T.map Prod.fst).Nodup) (hnb : nm ≠ "base") :
    curOf (setA (setA T nm (!decide (curOf T = nm))) nm
      (!decide (curOf (setA T nm (!decide (curOf T = nm))) = nm)))
      = curOf T := by
  by_cases h1 : curOf T = nm
  · have hfa : firstActiveToggle T = some nm := by
      rcases hf : firstActiveToggle T with _ | m
      · have hb : curOf T = "base" := by simp [curOf, hf]
        rw [hb] at h1
        exact absurd h1.symm hnb
      · have hm : curOf T = m := by simp [curOf, hf]
        rw [hm] at h1
        rw [h1]
    have e1 : (!decide (curOf T = nm)) = false := by simp [h1]
    rw [e1]
    have h2 : curOf (setA T nm false) ≠ nm := by
      intro he
      rcases hf2 : firstActiveToggle (setA T nm false) with _ | m
      · have hb : curOf (setA T nm false) = "base" := by simp [curOf, hf2]
        rw [hb] at he
        exact hnb he.symm
      · have hm : curOf (setA T nm false) = m := by simp [curOf, hf2]
        rw [hm] at he
        exact firstActive_setA_false_ne T nm m hnd hf2 he
    have e2 : (!decide (curOf (setA T nm false) = nm)) = true := by simp [h2]
    rw [e2, setA_setA,
      setA_id T nm true (lookupA_of_firstActive T nm hnd hfa), h1]
  · have e1 : (!decide (curOf T = nm)) = true := by simp [h1]
    rw [e1]
    by_cases h2 : curOf (setA T nm true) = nm
    · have e2 : (!decide (curOf (setA T nm true) = nm)) = false := by simp [h2]
      rw [e2, setA_setA]
      exact curOf_setA_false T nm h1
    · have e2 : (!decide (curOf (setA T nm true) = nm)) = true := by simp [h2]
      rw [e2, setA_setA]
      exact curOf_setA_true_ne T nm h2

/-- **C5** (amended). A press of a toggle-type layer-activation key sets
the stored boolean to the negation of "the target layer is the currently
resolved layer" (so it is a flip unless the toggle is shadowed), writes the
`toggle_<name>` entry to the in-memory state and immediately persists a
state document containing the new toggle values, produces no character,
and pressing the same toggle key twice restores the pre-activation current
layer. -/
theorem toggle_set_spec (L : Layout) (es : EngineState) (n : String)
    (c : Int) (ty : String) (pos : Nat) (baseSyms : List (List Nat))
    (cfg : LayerKeyConfig)
    (hty : ty = "press" ∨ ty = "repeat")
    (hp : lookupA L.keyPositions n = some pos)
    (hb : lookupA L.layers "base" = some baseSyms)
    (hlt : pos < baseSyms.length)
    (hk : getLayerForKey L (baseSyms.getD pos []) = some cfg)
    (hc : cfg.type = LayerType.Toggle)
    (hnd : (es.layerState.toggles.map Prod.fst).Nodup)
    (hnb : cfg.targetLayer ≠ "base") :
    (processKeyEvent L n c ty es).es.layerState.toggles
        = setA es.layerState.toggles cfg.targetLayer
            (!decide (getCurrentLayer es.layerState = cfg.targetLayer)) ∧
    (processKeyEvent L n c ty es).es.stateMap
        = setA es.stateMap ("toggle_" ++ cfg.targetLayer)
            (if !decide (getCurrentLayer es.layerState = cfg.targetLayer)
             then "true" else "false") ∧
    (processKeyEvent L n c ty es).saved
        = some (saveStateFile (processKeyEvent L n c ty es).es.stateMap
            (processKeyEvent L n c ty es).es.layerState.toggles) ∧
    (processKeyEvent L n c ty es).out = none ∧
    getCurrentLayer (processKeyEvent L n c ty
        (processKeyEvent L n c ty es).es).es.layerState
      = getCurrentLayer es.layerState := by
  have h1 := processKeyEvent_toggle L n c ty es pos baseSyms cfg hty hp hb
    hlt hk hc
  have h2 := processKeyEvent_toggle L n c ty (processKeyEvent L n c ty es).es
    pos baseSyms cfg hty hp hb hlt hk hc
  refine ⟨by rw [h1], by rw [h1], by rw [h1], by rw [h1], ?_⟩
  rw [h2, h1]
  dsimp only
  by_cases ho : es.layerState.oneTime = ""
  · by_cases hh : es.layerState.hold = ""
    · rw [getCurrentLayer_eq_curOf es.layerState ho hh,
        getCurrentLayer_fields _ _ _ _ _ ho hh,
        getCurrentLayer_fields _ _ _ _ _ ho hh]
      exact curOf_double_set es.layerState.toggles cfg.targetLayer hnd hnb
    · simp [getCurrentLayer, ho, hh]
  · simp [getCurrentLayer, ho]

/-- **C5** amended witness: from the startup state, pressing the toggle key
`key_b` activates `sym` (false → true), persists it at once, and a second
press restores the current layer `base`. -/
theorem toggle_set_spec_witness :
    (processKeyEvent exLayout "key_b" 2 "press" exInit).es.layerState.toggles
        = [("sym", true)] ∧
    (processKeyEvent exLayout "key_b" 2 "press" exInit).saved
        = some (saveStateFile
            (processKeyEvent exLayout "key_b" 2 "press" exInit).es.stateMap
            (processKeyEvent exLayout "key_b" 2 "press"
              exInit).es.layerState.toggles) ∧
    getCurrentLayer (processKeyEvent exLayout "key_b" 2 "press"
        (processKeyEvent exLayout "key_b" 2 "press" exInit).es).es.layerState
      = getCurrentLayer exInit.layerState := by
  have h := toggle_set_spec exLayout exInit "key_b" 2 "press" 1
    [symX, symLySym, symLyNav, symLyOo, symZZ] ⟨"sym", LayerType.Toggle⟩
    (Or.inl rfl) (by decide) (by decide) (by decide) (by decide) rfl
    (by decide) (by decide)
  refine ⟨?_, h.2.2.1, h.2.2.2.2⟩
  rw [h.1]
  decide

/-- **C6** (amended). When the armed onetime layer exists in the layer
table and the position is in bounds, the next character resolution uses
exactly that layer's symbol table and clears the onetime layer, whether or
not the symbol decodes to a character; afterwards resolution falls back to
the next-highest-priority layer. -/
theorem onetime_single_use_spec (L : Layout) (n : String) (c : Int)
    (ty : String) (es : EngineState) (pos : Nat)
    (baseSyms syms : List (List Nat))
    (hty : ty = "press" ∨ ty = "repeat")
    (hp : lookupA L.keyPositions n = some pos)
    (hb : lookupA L.layers "base" = some baseSyms)
    (hlt : pos < baseSyms.length)
    (hk : getLayerForKey L (baseSyms.getD pos []) = none)
    (hne : es.layerState.oneTime ≠ "")
    (hlay : lookupA L.layers es.layerState.oneTime = some syms)
    (hlt2 : pos < syms.length) :
    getCurrentLayer es.layerState = es.layerState.oneTime ∧
    (processKeyEvent L n c ty es).out = stringToChar32 (syms.getD pos []) ∧
    (processKeyEvent L n c ty es).es.layerState
      = { es.layerState with oneTime := "" } ∧
    getCurrentLayer (processKeyEvent L n c ty es).es.layerState
      = getCurrentLayer { es.layerState with oneTime := "" } := by
  have hcur : getCurrentLayer es.layerState = es.layerState.oneTime := by
    simp [getCurrentLayer, hne]
  have hcur' : lookupA L.layers (getCurrentLayer es.layerState) = some syms := by
    rw [hcur]
    exact hlay
  rw [processKeyEvent_char_ok L n c ty es pos baseSyms syms hty hp hb hlt hk
    hcur' hlt2]
  refine ⟨hcur, rfl, ?_, ?_⟩
  · simp [hne]
  · simp [hne]

/-- The startup state with the onetime layer `sym` armed. -/
def esOneArm : EngineState :=
  { exInit with layerState := { exInit.layerState with oneTime := "sym" } }

/-- **C6** amended witness: with onetime layer `sym` armed (its table
exists), pressing `key_a` resolves `y` from `sym` and clears the arm. -/
theorem onetime_single_use_spec_witness :
    getCurrentLayer esOneArm.layerState = "sym" ∧
    (processKeyEvent exLayout "key_a" 1 "press" esOneArm).out = some 0x79 ∧
    (processKeyEvent exLayout "key_a" 1 "press"
      esOneArm).es.layerState.oneTime = "" := by
  have h := onetime_single_use_spec exLayout "key_a" 1 "press" esOneArm 0
    [symX, symLySym, symLyNav, symLyOo, symZZ] [symY, symY, symY, symY, symY]
    (Or.inl rfl) (by decide) (by decide) (by decide) (by decide) (by decide)
    (by decide) (by decide)
  refine ⟨h.1, ?_, ?_⟩
  · rw [h.2.1]
    decide
  · rw [h.2.2.1]

/-! ### UTF-8 byte-level lemmas -/

lemma and_mod_64 (x : Nat) : x &&& 0x3F = x % 64 := by
  have h := Nat.and_pow_two_sub_one_eq_mod x 6
  norm_num at h
  exact h

lemma and_mod_32 (x : Nat) : x &&& 0x1F = x % 32 := by
  have h := Nat.and_pow_two_sub_one_eq_mod x 5
  norm_num at h
  exact h

lemma and_mod_16 (x : Nat) : x &&& 0x0F = x % 16 := by
  have h := Nat.and_pow_two_sub_one_eq_mod x 4
  norm_num at h
  exact h

lemma and_mod_8 (x : Nat) : x &&& 0x07 = x % 8 := by
  have h := Nat.and_pow_two_sub_one_eq_mod x 3
  norm_num at h
  exact h

lemma byte2Facts (h : Nat) (hh : h < 32) :
    0xC0 ||| h = 0xC0 + h ∧ ¬ ((0xC0 + h) &&& 0x80 = 0) ∧
    (0xC0 + h) &&& 0xE0 = 0xC0 ∧ (0xC0 + h) &&& 0x1F = h := by
  interval_cases h <;> decide

lemma byteContFacts (l : Nat) (hl : l < 64) :
    0x80 ||| l = 0x80 + l ∧ ¬ ((0x80 + l) &&& 0x80 = 0) ∧
    (0x80 + l) &&& 0xC0 = 0x80 ∧ (0x80 + l) &&& 0x3F = l := by
  interval_cases l <;> decide

lemma byte3Facts (h : Nat) (hh : h < 16) :
    0xE0 ||| h = 0xE0 + h ∧ ¬ ((0xE0 + h) &&& 0x80 = 0) ∧
    ¬ ((0xE0 + h) &&& 0xE0 = 0xC0) ∧ (0xE0 + h) &&& 0xF0 = 0xE0 ∧
    (0xE0 + h) &&& 0x0F = h := by
  interval_cases h <;> decide

lemma byte4Facts (h : Nat) (hh : h < 8) :
    0xF0 ||| h = 0xF0 + h ∧ ¬ ((0xF0 + h) &&& 0x80 = 0) ∧
    ¬ ((0xF0 + h) &&& 0xE0 = 0xC0) ∧ ¬ ((0xF0 + h) &&& 0xF0 = 0xE0) ∧
    (0xF0 + h) &&& 0xF8 = 0xF0 ∧ (0xF0 + h) &&& 0x07 = h := by
  interval_cases h <;> decide

lemma lor_small (k a b : Nat) (hb : b < 2 ^ k) :
    (2 ^ k * a) ||| b = 2 ^ k * a + b :=
  (Nat.mul_add_lt_is_or hb a).symm

/-! ### Encode normalization -/

lemma utf8_enc1 (v : Nat) (h : v ≤ 0x7F) : utf32ToUtf8 v = [v] := by
  rw [utf32ToUtf8, if_pos h]

lemma utf8_enc2 (v : Nat) (h1 : 0x80 ≤ v) (h2 : v ≤ 0x7FF) :
    utf32ToUtf8 v = [0xC0 + v / 64, 0x80 + v % 64] := by
  have hd : v / 64 < 32 := by omega
  have hm : v % 64 < 64 := Nat.mod_lt _ (by norm_num)
  rw [utf32ToUtf8, if_neg (by omega), if_pos h2, Nat.shiftRight_eq_div_pow,
    and_mod_32, and_mod_64]
  norm_num
  rw [Nat.mod_eq_of_lt hd, (byte2Facts _ hd).1, (byteContFacts _ hm).1]
  exact ⟨rfl, rfl⟩

lemma utf8_enc3 (v : Nat) (h1 : 0x800 ≤ v) (h2 : v ≤ 0xFFFF) :
    utf32ToUtf8 v =
      [0xE0 + v / 4096, 0x80 + v / 64 % 64, 0x80 + v % 64] := by
  have hd : v / 4096 < 16 := by omega
  have hm1 : v / 64 % 64 < 64 := Nat.mod_lt _ (by norm_num)
  have hm : v % 64 < 64 := Nat.mod_lt _ (by norm_num)
  rw [utf32ToUtf8, if_neg (by omega), if_neg (by omega), if_pos h2,
    Nat.shiftRight_eq_div_pow, Nat.shiftRight_eq_div_pow, and_mod_16,
    and_mod_64, and_mod_64]
  norm_num
  rw [Nat.mod_eq_of_lt hd, (byte3Facts _ hd).1, (byteContFacts _ hm1).1,
    (byteContFacts _ hm).1]
  exact ⟨rfl, rfl, rfl⟩

lemma utf8_enc4 (v : Nat) (h1 : 0x10000 ≤ v) (h2 : v ≤ 0x10FFFF) :
    utf32ToUtf8 v =
      [0xF0 + v / 262144, 0x80 + v / 4096 % 64, 0x80 + v / 64 % 64,
       0x80 + v % 64] := by
  have hd : v / 262144 < 8 := by omega
  have hm2 : v / 4096 % 64 < 64 := Nat.mod_lt _ (by norm_num)
  have hm1 : v / 64 % 64 < 64 := Nat.mod_lt _ (by norm_num)
  have hm : v % 64 < 64 := Nat.mod_lt _ (by norm_num)
  rw [utf32ToUtf8, if_neg (by omega), if_neg (by omega), if_neg (by omega),
    if_pos h2, Nat.shiftRight_eq_div_pow, Nat.shiftRight_eq_div_pow,
    Nat.shiftRight_eq_div_pow, and_mod_8, and_mod_64, and_mod_64, and_mod_64]
  norm_num
  rw [Nat.mod_eq_of_lt hd, (byte4Facts _ hd).1, (byteContFacts _ hm2).1,
    (byteContFacts _ hm1).1, (byteContFacts _ hm).1]
  exact ⟨rfl, rfl, rfl, rfl⟩

/-! ### Decode on well-formed sequences -/

lemma utf8_dec1 (v : Nat) (hv : v ≤ 0x7F) (hs : v ≠ 0x20) :
    stringToChar32 [v] = some v := by
  have h80 : v &&& 0x80 = 0 := by
    have h := Nat.and_two_pow v 7
    rw [Nat.testBit_lt_two_pow (by omega)] at h
    norm_num at h
    exact h
  rw [stringToChar32]
  rw [if_neg (by simp), if_neg (by simp [escN]), if_neg (by simp [escT]),
    if_neg (by simp [escB]), if_neg (by simp [escX1B]),
    if_neg (by simp [escSpace, hs])]
  simp [h80]

lemma utf8_dec2 (h l : Nat) (hh : h < 32) (hl : l < 64) :
    stringToChar32 [0xC0 + h, 0x80 + l] = some (64 * h + l) := by
  obtain ⟨e1, e2, e3, e4⟩ := byte2Facts h hh
  obtain ⟨f1, f2, f3, f4⟩ := byteContFacts l hl
  have h92 : ¬ (0xC0 + h = 0x5C) := by omega
  rw [stringToChar32]
  rw [if_neg (by simp), if_neg (by simp [escN, h92]),
    if_neg (by simp [escT, h92]), if_neg (by simp [escB, h92]),
    if_neg (by simp [escX1B]), if_neg (by simp [escSpace])]
  simp only [List.headD_cons, List.getD_cons_succ, List.getD_cons_zero,
    List.length_cons, List.length_nil]
  rw [if_neg e2, if_pos (And.intro e3 (by omega)), if_pos f3, e4, f4]
  rw [Nat.shiftLeft_eq, Nat.mul_comm h (2 ^ 6), lor_small 6 h l (by omega)]
  norm_num

lemma utf8_dec3 (h m l : Nat) (hh : h < 16) (hm : m < 64) (hl : l < 64) :
    stringToChar32 [0xE0 + h, 0x80 + m, 0x80 + l]
      = some (4096 * h + 64 * m + l) := by
  obtain ⟨e1, e2, e3, e4, e5⟩ := byte3Facts h hh
  obtain ⟨f1, f2, f3, f4⟩ := byteContFacts m hm
  obtain ⟨g1, g2, g3, g4⟩ := byteContFacts l hl
  have h92 : ¬ (0xE0 + h = 0x5C) := by omega
  rw [stringToChar32]
  rw [if_neg (by simp), if_neg (by simp [escN, h92]),
    if_neg (by simp [escT, h92]), if_neg (by simp [escB, h92]),
    if_neg (by simp [escX1B, h92]), if_neg (by simp [escSpace])]
  simp only [List.headD_cons, List.getD_cons_succ, List.getD_cons_zero,
    List.length_cons, List.length_nil]
  rw [if_neg e2]
  rw [if_neg (fun hc => e3 hc.1)]
  rw [if_pos (And.intro e4 (by omega))]
  rw [if_pos (And.intro f3 g3), e5, f4, g4]
  rw [Nat.shiftLeft_eq, Nat.shiftLeft_eq, Nat.mul_comm h (2 ^ 12),
    Nat.mul_comm m (2 ^ 6)]
  rw [lor_small 12 h (2 ^ 6 * m) (by omega)]
  rw [show 2 ^ 12 * h + 2 ^ 6 * m = 2 ^ 6 * (2 ^ 6 * h + m) by ring]
  rw [lor_small 6 (2 ^ 6 * h + m) l (by omega)]
  ring_nf

lemma utf8_dec4 (h m2 m l : Nat) (hh : h < 8) (hm2 : m2 < 64) (hm : m < 64)
    (hl : l < 64) :
    stringToChar32 [0xF0 + h, 0x80 + m2, 0x80 + m, 0x80 + l]
      = some (262144 * h + 4096 * m2 + 64 * m + l) := by
  obtain ⟨e1, e2, e3, e4, e5, e6⟩ := byte4Facts h hh
  obtain ⟨f1, f2, f3, f4⟩ := byteContFacts m2 hm2
  obtain ⟨g1, g2, g3, g4⟩ := byteContFacts m hm
  obtain ⟨i1, i2, i3, i4⟩ := byteContFacts l hl
  have h92 : ¬ (0xF0 + h = 0x5C) := by omega
  rw [stringToChar32]
  rw [if_neg (by simp), if_neg (by simp [escN, h92]),
    if_neg (by simp [escT, h92]), if_neg (by simp [escB, h92]),
    if_neg (by simp [escX1B, h92]), if_neg (by simp [escSpace])]
  simp only [List.headD_cons, List.getD_cons_succ, List.getD_cons_zero,
    List.length_cons, List.length_nil]
  rw [if_neg e2]
  rw [if_neg (fun hc => e3 hc.1)]
  rw [if_neg (fun hc => e4 hc.1)]
  rw [if_pos (And.intro e5 (by omega))]
  rw [if_pos (And.intro f3 (And.intro g3 i3)), e6, f4, g4, i4]
  rw [Nat.shiftLeft_eq, Nat.shiftLeft_eq, Nat.shiftLeft_eq,
    Nat.mul_comm h (2 ^ 18), Nat.mul_comm m2 (2 ^ 12), Nat.mul_comm m (2 ^ 6)]
  rw [lor_small 18 h (2 ^ 12 * m2) (by omega)]
  rw [show 2 ^ 18 * h + 2 ^ 12 * m2 = 2 ^ 12 * (2 ^ 6 * h + m2) by ring]
  rw [lor_small 12 (2 ^ 6 * h + m2) (2 ^ 6 * m) (by omega)]
  rw [show 2 ^ 12 * (2 ^ 6 * h + m2) + 2 ^ 6 * m
      = 2 ^ 6 * (2 ^ 6 * (2 ^ 6 * h + m2) + m) by ring]
  rw [lor_small 6 (2 ^ 6 * (2 ^ 6 * h + m2) + m) l (by omega)]
  ring_nf

/-! ### Decode on malformed sequences -/

lemma utf8_malformed_none (s : List Nat) (h : utf8MalformedB s = true) :
    stringToChar32 s = none := by
  rcases s with _ | ⟨b, rest⟩
  · rfl
  · rw [utf8MalformedB] at h
    simp only [Bool.and_eq_true, Bool.not_eq_true'] at h
    obtain ⟨hesc, ⟨⟨⟨c1, cA⟩, cB⟩, cC⟩⟩ := h
    rw [isEscapeB] at hesc
    simp only [Bool.or_eq_false_iff, decide_eq_false_iff_not] at hesc
    obtain ⟨⟨⟨⟨hE1, hE2⟩, hE3⟩, hE4⟩, hE5⟩ := hesc
    rw [stringToChar32]
    rw [if_neg (by simp), if_neg hE1, if_neg hE2, if_neg hE3, if_neg hE4,
      if_neg hE5]
    simp only [List.headD_cons]
    rw [if_neg (of_decide_eq_false c1)]
    by_cases m2 : b &&& 0xE0 = 0xC0 ∧ 2 ≤ (b :: rest).length
    · rw [if_pos m2]
      have hcont : contOKB ((b :: rest).getD 1 0) = false := by
        rcases (Bool.or_eq_true _ _).mp cA with hx | hx
        · rw [Bool.not_eq_true', decide_eq_false_iff_not] at hx
          exact absurd m2 hx
        · rwa [Bool.not_eq_true'] at hx
      rw [if_neg]
      rw [contOKB, decide_eq_false_iff_not] at hcont
      exact hcont
    · rw [if_neg m2]
      by_cases m3 : b &&& 0xF0 = 0xE0 ∧ 3 ≤ (b :: rest).length
      · rw [if_pos m3]
        have hcont : (contOKB ((b :: rest).getD 1 0) &&
            contOKB ((b :: rest).getD 2 0)) = false := by
          rcases (Bool.or_eq_true _ _).mp cB with hx | hx
          · rw [Bool.not_eq_true', decide_eq_false_iff_not] at hx
            exact absurd m3 hx
          · rwa [Bool.not_eq_true'] at hx
        rw [if_neg]
        intro hc
        rw [Bool.and_eq_false_iff] at hcont
        rcases hcont with hx | hx <;>
          rw [contOKB, decide_eq_false_iff_not] at hx
        · exact hx hc.1
        · exact hx hc.2
      · rw [if_neg m3]
        by_cases m4 : b &&& 0xF8 = 0xF0 ∧ 4 ≤ (b :: rest).length
        · rw [if_pos m4]
          have hcont : (contOKB ((b :: rest).getD 1 0) &&
              contOKB ((b :: rest).getD 2 0) &&
                contOKB ((b :: rest).getD 3 0)) = false := by
            rcases (Bool.or_eq_true _ _).mp cC with hx | hx
            · rw [Bool.not_eq_true', decide_eq_false_iff_not] at hx
              exact absurd m4 hx
            · rwa [Bool.not_eq_true'] at hx
          rw [if_neg]
          intro hc
          rw [Bool.and_eq_false_iff] at hcont
          rcases hcont with hx | hx
          · rw [Bool.and_eq_false_iff] at hx
            rcases hx with hy | hy <;>
              rw [contOKB, decide_eq_false_iff_not] at hy
            · exact hy hc.1
            · exact hy hc.2.1
          · rw [contOKB, decide_eq_false_iff_not] at hx
            exact hx hc.2.2
        · rw [if_neg m4]

/-- **C8**. The layer-table symbol decoder maps the five escape strings to
their control characters; decoding the standard UTF-8 encoding of any
scalar value yields the value back (decode is a left inverse of encode);
and the empty string and every malformed sequence (bad leading byte,
truncation, or failed continuation-byte validation) decode to `none`. -/
theorem utf8_decode_spec :
    (stringToChar32 escN = some 0x0A ∧ stringToChar32 escT = some 0x09 ∧
     stringToChar32 escB = some 0x08 ∧ stringToChar32 escX1B = some 0x1B ∧
     stringToChar32 escSpace = some 0x20) ∧
    (∀ v : Nat, v < 0x110000 → stringToChar32 (utf32ToUtf8 v) = some v) ∧
    stringToChar32 [] = none ∧
    (∀ s, utf8MalformedB s = true → stringToChar32 s = none) := by
  refine ⟨by decide, ?_, rfl, utf8_malformed_none⟩
  intro v hv
  by_cases c1 : v ≤ 0x7F
  · rw [utf8_enc1 v c1]
    by_cases c0 : v = 0x20
    · subst c0
      decide
    · exact utf8_dec1 v c1 c0
  · by_cases c2 : v ≤ 0x7FF
    · rw [utf8_enc2 v (by omega) c2, utf8_dec2 _ _ (by omega) (by omega)]
      congr 1
      omega
    · by_cases c3 : v ≤ 0xFFFF
      · rw [utf8_enc3 v (by omega) c3,
          utf8_dec3 _ _ _ (by omega) (by omega) (by omega)]
        congr 1
        omega
      · rw [utf8_enc4 v (by omega) (by omega),
          utf8_dec4 _ _ _ _ (by omega) (by omega) (by omega) (by omega)]
        congr 1
        omega

/-- **C8** witness: the 4-byte scalar U+1F600 round-trips, and the
truncated/invalid sequence `C2 41` decodes to no character. -/
theorem utf8_decode_spec_witness :
    stringToChar32 (utf32ToUtf8 0x1F600) = some 0x1F600 ∧
    stringToChar32 [0xC2, 0x41] = none :=
  ⟨utf8_decode_spec.2.1 0x1F600 (by decide),
   utf8_decode_spec.2.2.2 [0xC2, 0x41] (by decide)⟩

/-! ### Hold-layer trace lemmas -/

lemma lookupA_mem {α β : Type} [DecidableEq α] (l : List (α × β)) (k : α)
    (v : β) (h : lookupA l k = some v) : (k, v) ∈ l := by
  induction l with
  | nil => simp [lookupA] at h
  | cons p t ih =>
    obtain ⟨k', v'⟩ := p
    by_cases hk : k' = k
    · subst hk
      rw [lookupA, if_pos rfl] at h
      injection h with h
      simp [h]
    · rw [lookupA, if_neg hk] at h
      simp [ih h]

lemma getLayerForKey_mem (L : Layout) (b : List Nat) (cfg : LayerKeyConfig)
    (h : getLayerForKey L b = some cfg) : ∃ s, (s, cfg) ∈ L.layerKeys := by
  simp only [getLayerForKey] at h
  split at h
  · exact ⟨cleanChar b, lookupA_mem _ _ _ h⟩
  · exact absurd h (by simp)

lemma specHoldActivation_elim (L : Layout) (n : String) (layer : String)
    (h : specHoldActivation L n = some layer) :
    ∃ pos baseSyms cfg, lookupA L.keyPositions n = some pos ∧
      lookupA L.layers "base" = some baseSyms ∧ pos < baseSyms.length ∧
      getLayerForKey L (baseSyms.getD pos []) = some cfg ∧
      cfg.type = LayerType.Hold ∧ cfg.targetLayer = layer := by
  rw [specHoldActivation] at h
  cases hp : lookupA L.keyPositions n with
  | none =>
    simp only [hp] at h
    exact Option.noConfusion h
  | some pos =>
    simp only [hp] at h
    cases hb : lookupA L.layers "base" with
    | none =>
      simp only [hb] at h
      exact Option.noConfusion h
    | some baseSyms =>
      simp only [hb] at h
      by_cases hlt : pos < baseSyms.length
      · rw [if_pos hlt] at h
        cases hk : getLayerForKey L (baseSyms.getD pos []) with
        | none =>
          simp only [hk] at h
          exact Option.noConfusion h
        | some cfg =>
          simp only [hk] at h
          by_cases hc : cfg.type = LayerType.Hold
          · rw [if_pos hc] at h
            injection h with h
            exact ⟨pos, baseSyms, cfg, rfl, rfl, hlt, hk, hc, h⟩
          · rw [if_neg hc] at h
            exact Option.noConfusion h
      · rw [if_neg hlt] at h
        exact Option.noConfusion h

lemma stepEvent_press_act (L : Layout) (es : EngineState) (n : String)
    (c : Int) (layer : String) (h : specHoldActivation L n = some layer) :
    (stepEvent L es (KEvent.press n c)).layerState.hold = layer ∧
    (stepEvent L es (KEvent.press n c)).layerState.holdKey = c := by
  obtain ⟨pos, baseSyms, cfg, hp, hb, hlt, hk, hc, rfl⟩ :=
    specHoldActivation_elim L n layer h
  simp only [stepEvent]
  rw [processKeyEvent_hold L n c "press" es pos baseSyms cfg (Or.inl rfl) hp
    hb hlt hk hc]
  exact ⟨rfl, rfl⟩

lemma stepEvent_press_nonact (L : Layout) (es : EngineState) (n : String)
    (c : Int) (h : specHoldActivation L n = none) :
    (stepEvent L es (KEvent.press n c)).layerState.hold
        = es.layerState.hold ∧
      (stepEvent L es (KEvent.press n c)).layerState.holdKey
        = es.layerState.holdKey := by
  simp only [stepEvent]
  rw [specHoldActivation] at h
  cases hp : lookupA L.keyPositions n with
  | none => simp [processKeyEvent, hp]
  | some pos =>
    simp only [hp] at h
    cases hb : lookupA L.layers "base" with
    | none => simp [processKeyEvent, hp, hb]
    | some baseSyms =>
      simp only [hb] at h
      by_cases hlt : pos < baseSyms.length
      · rw [if_pos hlt] at h
        cases hk : getLayerForKey L (baseSyms.getD pos []) with
        | none =>
          cases hcur : lookupA L.layers (getCurrentLayer es.layerState) with
          | none =>
            rw [processKeyEvent_char_missing L n c "press" es pos baseSyms
              (Or.inl rfl) hp hb hlt hk hcur]
            exact ⟨rfl, rfl⟩
          | some syms =>
            by_cases hlt2 : pos < syms.length
            · rw [processKeyEvent_char_ok L n c "press" es pos baseSyms syms
                (Or.inl rfl) hp hb hlt hk hcur hlt2]
              constructor <;> (dsimp only; split <;> rfl)
            · rw [processKeyEvent_char_oob L n c "press" es pos baseSyms syms
                (Or.inl rfl) hp hb hlt hk hcur hlt2]
              exact ⟨rfl, rfl⟩
        | some cfg =>
          simp only [hk] at h
          cases hc : cfg.type with
          | Hold =>
            rw [if_pos hc] at h
            exact Option.noConfusion h
          | Toggle =>
            rw [processKeyEvent_toggle L n c "press" es pos baseSyms cfg
              (Or.inl rfl) hp hb hlt hk hc]
            exact ⟨rfl, rfl⟩
          | Onetime =>
            rw [processKeyEvent_onetime L n c "press" es pos baseSyms cfg
              (Or.inl rfl) hp hb hlt hk hc]
            exact ⟨rfl, rfl⟩
      · simp [processKeyEvent, hp, hb, hlt]

lemma runEvents_append (L : Layout) (es : EngineState) (t : List KEvent)
    (e : KEvent) :
    runEvents L es (t ++ [e]) = stepEvent L (runEvents L es t) e := by
  induction t generalizing es with
  | nil => rfl
  | cons x xs ih => simp [runEvents, ih]

lemma concat_decomp {α : Type} (t t₁ t₂ : List α) (p e : α)
    (h : t ++ [e] = t₁ ++ p :: t₂) :
    (t₂ = [] ∧ p = e ∧ t₁ = t) ∨
    (∃ t₂', t₂ = t₂' ++ [e] ∧ t = t₁ ++ p :: t₂') := by
  rcases List.eq_nil_or_concat t₂ with rfl | ⟨t₂', e', rfl⟩
  · left
    have hlen : t.length = t₁.length := by
      have := congrArg List.length h
      simp at this
      omega
    obtain ⟨h1, h2⟩ := List.append_inj h hlen
    injection h2 with h2
    exact ⟨rfl, h2.symm, h1.symm⟩
  · right
    rw [List.concat_eq_append] at h ⊢
    rw [show t₁ ++ p :: (t₂' ++ [e']) = (t₁ ++ p :: t₂') ++ [e'] by simp] at h
    have hlen : t.length = (t₁ ++ p :: t₂').length := by
      have := congrArg List.length h
      simp at this
      simp only [List.length_append, List.length_cons]
      omega
    obtain ⟨h1, h2⟩ := List.append_inj h hlen
    injection h2 with h2
    exact ⟨t₂', by rw [h2], h1⟩

lemma not_holdAlive_nil (L : Layout) : ¬ HoldAliveSpec L [] := by
  rintro ⟨t₁, n, c, t₂, layer, heq, -, -, -⟩
  have := congrArg List.length heq
  simp at this
  omega

/-- The hold-layer trace invariant: the recorded hold layer is nonempty
exactly when the trace ends with an unreleased hold activation, and in
that case the recorded layer and originating key code are those of the
last hold activation. -/
lemma hold_inv (L : Layout) (es0 : EngineState)
    (hne : ∀ s cfg, (s, cfg) ∈ L.layerKeys → cfg.targetLayer ≠ "")
    (h0 : es0.layerState.hold = "") :
    ∀ t : List KEvent,
      ((runEvents L es0 t).layerState.hold ≠ "" ↔ HoldAliveSpec L t) ∧
      (∀ t₁ n c t₂ layer, t = t₁ ++ KEvent.press n c :: t₂ →
        specHoldActivation L n = some layer →
        (∀ n' c', KEvent.press n' c' ∈ t₂ → specHoldActivation L n' = none) →
        KEvent.release c ∉ t₂ →
        (runEvents L es0 t).layerState.hold = layer ∧
        (runEvents L es0 t).layerState.holdKey = c) := by
  intro t
  induction t using List.reverseRecOn with
  | nil =>
    constructor
    · exact iff_of_false (by simp [runEvents, h0]) (not_holdAlive_nil L)
    · intro t₁ n c t₂ layer heq
      exfalso
      have := congrArg List.length heq
      simp at this
      omega
  | append_singleton t e ih =>
    obtain ⟨ih1, ih2⟩ := ih
    rw [runEvents_append]
    cases e with
    | press n c =>
      cases hact : specHoldActivation L n with
      | some layer =>
        obtain ⟨hh, hk⟩ :=
          stepEvent_press_act L (runEvents L es0 t) n c layer hact
        have hlne : layer ≠ "" := by
          obtain ⟨pos, baseSyms, cfg, -, -, -, hgk, -, hl⟩ :=
            specHoldActivation_elim L n layer hact
          obtain ⟨s, hmem⟩ := getLayerForKey_mem L _ cfg hgk
          exact hl ▸ hne s cfg hmem
        constructor
        · rw [hh]
          exact iff_of_true hlne
            ⟨t, n, c, [], layer, rfl, hact, by simp, by simp⟩
        · intro t₁ n' c' t₂ layer' heq hact' hno hrel
          rcases concat_decomp t t₁ t₂ _ _ heq with
            ⟨ht2, hpe, ht1⟩ | ⟨t₂'', ht2, ht⟩
          · injection hpe with e1 e2
            subst e1
            subst e2
            rw [hact] at hact'
            injection hact' with e3
            subst e3
            exact ⟨hh, hk⟩
          · exfalso
            have hmem : KEvent.press n c ∈ t₂ := by
              rw [ht2]
              simp
            have hcontra := hno n c hmem
            rw [hact] at hcontra
            exact Option.noConfusion hcontra
      | none =>
        obtain ⟨hh, hk⟩ :=
          stepEvent_press_nonact L (runEvents L es0 t) n c hact
        constructor
        · rw [hh, ih1]
          constructor
          · rintro ⟨t₁, n', c', t₂, layer', heq, ha, hno, hrel⟩
            refine ⟨t₁, n', c', t₂ ++ [KEvent.press n c], layer',
              by rw [heq]; simp, ha, ?_, ?_⟩
            · intro n'' c'' hm
              rcases List.mem_append.mp hm with hm | hm
              · exact hno n'' c'' hm
              · simp at hm
                rw [hm.1]
                exact hact
            · intro hm
              rcases List.mem_append.mp hm with hm | hm
              · exact hrel hm
              · simp at hm
          · rintro ⟨t₁, n', c', t₂, layer', heq, ha, hno, hrel⟩
            rcases concat_decomp t t₁ t₂ _ _ heq with
              ⟨ht2, hpe, ht1⟩ | ⟨t₂'', ht2, ht⟩
            · injection hpe with e1 e2
              subst e1
              rw [hact] at ha
              exact Option.noConfusion ha
            · subst ht2
              exact ⟨t₁, n', c', t₂'', layer', ht, ha,
                fun n'' c'' hm => hno n'' c'' (by simp [hm]),
                fun hm => hrel (by simp [hm])⟩
        · intro t₁ n' c' t₂ layer' heq hact' hno hrel
          rcases concat_decomp t t₁ t₂ _ _ heq with
            ⟨ht2, hpe, ht1⟩ | ⟨t₂'', ht2, ht⟩
          · injection hpe with e1 e2
            subst e1
            rw [hact] at hact'
            exact Option.noConfusion hact'
          · subst ht2
            have hres := ih2 t₁ n' c' t₂'' layer' ht hact'
              (fun n'' c'' hm => hno n'' c'' (by simp [hm]))
              (fun hm => hrel (by simp [hm]))
            rw [hh, hk]
            exact hres
    | release c0 =>
      have hstep : (stepEvent L (runEvents L es0 t)
            (KEvent.release c0)).layerState
          = handleKeyRelease (runEvents L es0 t).layerState c0 := rfl
      by_cases hht : (runEvents L es0 t).layerState.hold = ""
      · have hnAlive : ¬ HoldAliveSpec L t := fun ha => (ih1.mpr ha) hht
        have hh' : (stepEvent L (runEvents L es0 t)
            (KEvent.release c0)).layerState.hold = "" := by
          rw [hstep, handleKeyRelease]
          split
          · rfl
          · exact hht
        constructor
        · rw [hh']
          simp only [ne_eq, not_true_eq_false, false_iff]
          rintro ⟨t₁, n', c', t₂, layer', heq, ha, hno, hrel⟩
          rcases concat_decomp t t₁ t₂ _ _ heq with
            ⟨ht2, hpe, ht1⟩ | ⟨t₂'', ht2, ht⟩
          · exact KEvent.noConfusion hpe
          · subst ht2
            exact hnAlive ⟨t₁, n', c', t₂'', layer', ht, ha,
              fun n'' c'' hm => hno n'' c'' (by simp [hm]),
              fun hm => hrel (by simp [hm])⟩
        · intro t₁ n' c' t₂ layer' heq hact' hno hrel
          exfalso
          rcases concat_decomp t t₁ t₂ _ _ heq with
            ⟨ht2, hpe, ht1⟩ | ⟨t₂'', ht2, ht⟩
          · exact KEvent.noConfusion hpe
          · subst ht2
            exact hnAlive ⟨t₁, n', c', t₂'', layer', ht, hact',
              fun n'' c'' hm => hno n'' c'' (by simp [hm]),
              fun hm => hrel (by simp [hm])⟩
      · obtain ⟨t₁, n, c, t₂, layer, heq, ha, hno, hrel⟩ := ih1.mp hht
        obtain ⟨hhv, hkv⟩ := ih2 t₁ n c t₂ layer heq ha hno hrel
        by_cases hc0 : c = c0
        · subst hc0
          have hh' : (stepEvent L (runEvents L es0 t)
              (KEvent.release c)).layerState.hold = "" := by
            rw [hstep, handleKeyRelease, if_pos hkv]
          constructor
          · rw [hh']
            simp only [ne_eq, not_true_eq_false, false_iff]
            rintro ⟨t₁', n', c', t₂', layer', heq', ha', hno', hrel'⟩
            rcases concat_decomp t t₁' t₂' _ _ heq' with
              ⟨ht2, hpe, ht1⟩ | ⟨t₂'', ht2, ht⟩
            · exact KEvent.noConfusion hpe
            · subst ht2
              have hres := ih2 t₁' n' c' t₂'' layer' ht ha'
                (fun n'' c'' hm => hno' n'' c'' (by simp [hm]))
                (fun hm => hrel' (by simp [hm]))
              have hcc : c' = c := by rw [← hres.2, hkv]
              subst hcc
              exact hrel' (by simp)
          · intro t₁' n' c' t₂' layer' heq' ha' hno' hrel'
            exfalso
            rcases concat_decomp t t₁' t₂' _ _ heq' with
              ⟨ht2, hpe, ht1⟩ | ⟨t₂'', ht2, ht⟩
            · exact KEvent.noConfusion hpe
            · subst ht2
              have hres := ih2 t₁' n' c' t₂'' layer' ht ha'
                (fun n'' c'' hm => hno' n'' c'' (by simp [hm]))
                (fun hm => hrel' (by simp [hm]))
              have hcc : c' = c := by rw [← hres.2, hkv]
              subst hcc
              exact hrel' (by simp)
        · have hne0 : ¬ (runEvents L es0 t).layerState.holdKey = c0 := by
            rw [hkv]
            exact hc0
          have hss : (stepEvent L (runEvents L es0 t)
              (KEvent.release c0)).layerState
              = (runEvents L es0 t).layerState := by
            rw [hstep, handleKeyRelease, if_neg hne0]
          constructor
          · rw [hss]
            constructor
            · intro _
              refine ⟨t₁, n, c, t₂ ++ [KEvent.release c0], layer,
                by rw [heq]; simp, ha, ?_, ?_⟩
              · intro n'' c'' hm
                rcases List.mem_append.mp hm with hm | hm
                · exact hno n'' c'' hm
                · simp at hm
              · intro hm
                rcases List.mem_append.mp hm with hm | hm
                · exact hrel hm
                · simp at hm
                  exact hc0 hm
            · intro _
              exact hht
          · intro t₁' n' c' t₂' layer' heq' ha' hno' hrel'
            rcases concat_decomp t t₁' t₂' _ _ heq' with
              ⟨ht2, hpe, ht1⟩ | ⟨t₂'', ht2, ht⟩
            · exact KEvent.noConfusion hpe
            · subst ht2
              have hres := ih2 t₁' n' c' t₂'' layer' ht ha'
                (fun n'' c'' hm => hno' n'' c'' (by simp [hm]))
                (fun hm => hrel' (by simp [hm]))
              rw [hss]
              exact hres

/-- **C7** (amended). Starting from a state with no hold layer, the hold
layer is *recorded* iff a hold-type activation key was pressed with no
release of its remembered originating code since; it is the *current*
layer iff additionally no onetime layer is armed (or the armed onetime
layer has the same name); and `handleKeyRelease` clears the hold layer
exactly when its argument equals the originating code, leaving the state
untouched for every other code. -/
theorem hold_layer_spec :
    (∀ L es0, (∀ s cfg, (s, cfg) ∈ L.layerKeys → cfg.targetLayer ≠ "") →
      es0.layerState.hold = "" →
      ∀ t, ((runEvents L es0 t).layerState.hold ≠ "" ↔ HoldAliveSpec L t)) ∧
    (∀ ls : LayerState,
      (getCurrentLayer ls = ls.hold ∧ ls.hold ≠ "") ↔
        (ls.hold ≠ "" ∧ (ls.oneTime = "" ∨ ls.oneTime = ls.hold))) ∧
    (∀ ls c, (ls.holdKey = c →
        handleKeyRelease ls c = { ls with hold := "", holdKey := -1 }) ∧
      (ls.holdKey ≠ c → handleKeyRelease ls c = ls)) := by
  refine ⟨?_, ?_, ?_⟩
  · intro L es0 hne h0 t
    exact (hold_inv L es0 hne h0 t).1
  · intro ls
    constructor
    · rintro ⟨hcur, hh⟩
      refine ⟨hh, ?_⟩
      by_cases ho : ls.oneTime = ""
      · exact Or.inl ho
      · right
        rw [← hcur]
        simp [getCurrentLayer, ho]
    · rintro ⟨hh, ho | ho⟩
      · exact ⟨by simp [getCurrentLayer, ho, hh], hh⟩
      · by_cases ho0 : ls.oneTime = ""
        · rw [ho0] at ho
          exact absurd ho.symm hh
        · exact ⟨by simp [getCurrentLayer, ho0, ho, hh], hh⟩
  · intro ls c
    constructor
    · intro h
      rw [handleKeyRelease, if_pos h]
    · intro h
      rw [handleKeyRelease, if_neg h]

/-- **C7** amended witness: pressing the hold key `key_c` records the hold
layer `nav` (the trace invariant applied to a one-press trace), and a
release of the originating code 3 clears a hold state. -/
theorem hold_layer_spec_witness :
    (runEvents exLayout exInit [KEvent.press "key_c" 3]).layerState.hold
        ≠ "" ∧
      handleKeyRelease
          { current := "base", toggles := [], oneTime := "", hold := "nav",
            holdKey := 3 } 3
        = { current := "base", toggles := [], oneTime := "", hold := "",
            holdKey := -1 } := by
  constructor
  · exact (hold_layer_spec.1 exLayout exInit
      (by
        intro s cfg hmem
        fin_cases hmem <;> decide) rfl
      [KEvent.press "key_c" 3]).mpr
      ⟨[], "key_c", 3, [], "nav", rfl, by decide, by simp, by simp⟩
  · exact (hold_layer_spec.2.2
      { current := "base", toggles := [], oneTime := "", hold := "nav",
        holdKey := 3 } 3).1 rfl

end KeyDrive
